import Mathlib

/-!
Verification development for the squid-log-exporter repository.

The repository contains two generations of the exporter:
* the v1 path (`squid_log_exporter.go`, package `main`): `MetricsCollector` with
  `parseNewEntries`, position handling inline;
* the v2 path (`internal/position` parser package and `internal/metrics`):
  `Parser.Parse`, `Parser.parseLine`, `Parser.updateMetrics`,
  `Metrics.SetConnections`, `Metrics.UpdateAllDomains`,
  `Metrics.UpdateMonitoredDomain`, `calculatePercentile`.

Both are embedded below.  Go `map[string]T` values are embedded as association
lists (`List (κ × β)`) whose iteration order is the list order; Go `float64`
arithmetic is embedded as exact rational arithmetic (`ℚ`): every value the
code feeds through the float pipeline is an integer count or a parsed decimal
literal, for which the operations used (add, sub, compare) are exact in the
ranges the claims quantify over.  Go `int`/`int64` counts that only ever
increment are embedded as `Nat`; byte counts, which can be parsed negative,
as `Int`.
-/

/-! ## Association-list helpers (embedding of Go maps) -/

/-- Lookup with a default, mirroring Go's zero-value map read `m[k]`. -/
def alGet [DecidableEq κ] (d : β) : List (κ × β) → κ → β
  | [], _ => d
  | (k', v) :: rest, k => if k' = k then v else alGet d rest k

/-- Insert-or-replace, mirroring Go's map write `m[k] = v`
(new keys appended in insertion order). -/
def alSet [DecidableEq κ] : List (κ × β) → κ → β → List (κ × β)
  | [], k, v => [(k, v)]
  | (k', v') :: rest, k, v =>
      if k' = k then (k', v) :: rest else (k', v') :: alSet rest k v

/-- Keys of an association list. -/
def alKeys (m : List (κ × β)) : List κ := m.map Prod.fst

/-! ## Embedding of `internal/metrics/metrics.go`

The Prometheus registry state is embedded explicitly:
* `lastSeen` is the `Metrics.lastSeen` map, keyed by the `makeKey`-joined
  string exactly as in the source;
* `counters` maps a Prometheus series identity (metric name followed by its
  label values, the identity `WithLabelValues` uses) to its current value;
  a series is created the first time `Add` is called on it;
* `gauges` likewise for the gauge vectors (`Set`).
-/

structure MetricsState where
  customLabelKeys : List String
  lastSeen : List (String × ℚ)
  counters : List (List String × ℚ)
  gauges : List (List String × ℚ)
  deriving DecidableEq

namespace Metrics

/-- `makeKey` from `internal/metrics/metrics.go` (strings.Join with "|"). -/
def makeKey : List String → String
  | [] => ""
  | [x] => x
  | x :: rest => x ++ "|" ++ makeKey rest

/-- The counter-delta engine: the block repeated verbatim in `SetConnections`,
`SetRequestDuration`, `SetCacheStatus`, `SetHTTPResponse`, `UpdateAllDomains`
and `UpdateMonitoredDomain`:

    lastValue := m.lastSeen[key]
    delta := newValue - lastValue
    if delta > 0 { counter.Add(delta) }
    m.lastSeen[key] = newValue

`lk` is the `lastSeen` key string, `ck` the Prometheus series the `Add`
targets. -/
def applyDelta (ms : MetricsState) (lk : String) (ck : List String) (v : ℚ) : MetricsState :=
  let lastValue := alGet 0 ms.lastSeen lk
  let delta := v - lastValue
  { ms with
    counters :=
      if 0 < delta then alSet ms.counters ck (alGet 0 ms.counters ck + delta) else ms.counters,
    lastSeen := alSet ms.lastSeen lk v }

/-- `Metrics.SetConnections` (counter part; `count` is a Go `int` holding a
per-run line count, hence `Nat`). -/
def SetConnections (ms : MetricsState) (count : Nat) : MetricsState :=
  applyDelta ms "connections" ["squid_connections_total"] (count : ℚ)

/-- `Metrics.SetRequestDuration`. -/
def SetRequestDuration (ms : MetricsState) (interval : String) (count : Nat) : MetricsState :=
  applyDelta ms (makeKey ["duration", interval])
    ["squid_request_duration_seconds_total", interval] (count : ℚ)

/-- `Metrics.SetCacheStatus`. -/
def SetCacheStatus (ms : MetricsState) (status : String) (count : Nat) : MetricsState :=
  applyDelta ms (makeKey ["cache", status]) ["squid_cache_status_total", status] (count : ℚ)

/-- `Metrics.SetHTTPResponse`. -/
def SetHTTPResponse (ms : MetricsState) (code category : String) (count : Nat) : MetricsState :=
  applyDelta ms (makeKey ["http", code, category])
    ["squid_http_responses_total", code, category] (count : ℚ)

/-- `Metrics.UpdateAllDomains`. -/
def UpdateAllDomains (ms : MetricsState) (host port : String)
    (requests bytesIn bytesOut : ℚ) (responsesByCategory : List (String × Nat)) : MetricsState :=
  let ms := applyDelta ms (makeKey ["all_req", host, port])
    ["squid_all_domains_requests_total", host, port] requests
  let ms := applyDelta ms (makeKey ["all_bytes_in", host, port])
    ["squid_all_domains_bytes_total", host, port, "in"] bytesIn
  let ms := applyDelta ms (makeKey ["all_bytes_out", host, port])
    ["squid_all_domains_bytes_total", host, port, "out"] bytesOut
  responsesByCategory.foldl
    (fun ms kv =>
      applyDelta ms (makeKey ["all_http_cat", host, port, kv.1])
        ["squid_all_domains_http_responses_total", host, port, kv.1] (kv.2 : ℚ)) ms

/-- `Metrics.buildLabelValues`. -/
def buildLabelValues (ms : MetricsState) (host port : String)
    (customLabels : List (String × String)) : List String :=
  [host, port] ++ ms.customLabelKeys.map (fun k => alGet "" customLabels k)

/-- `Metrics.UpdateMonitoredDomain`. -/
def UpdateMonitoredDomain (ms : MetricsState) (host port : String)
    (customLabels : List (String × String))
    (requests bytesIn bytesOut : ℚ)
    (responsesByCode : List ((String × String) × Nat))
    (avgDuration p50 p90 p95 p99 : ℚ)
    (cacheHits cacheMisses : Nat) : MetricsState :=
  let baseLabels := buildLabelValues ms host port customLabels
  let customVals := ms.customLabelKeys.map (fun k => alGet "" customLabels k)
  let ms := applyDelta ms (makeKey ["mon_req", host, port])
    ("squid_monitored_domains_requests_total" :: baseLabels) requests
  let ms := applyDelta ms (makeKey ["mon_bytes_in", host, port])
    ("squid_monitored_domains_bytes_total" :: ([host, port, "in"] ++ customVals)) bytesIn
  let ms := applyDelta ms (makeKey ["mon_bytes_out", host, port])
    ("squid_monitored_domains_bytes_total" :: ([host, port, "out"] ++ customVals)) bytesOut
  let ms := responsesByCode.foldl
    (fun ms kv =>
      applyDelta ms (makeKey ["mon_http", host, port, kv.1.1, kv.1.2])
        ("squid_monitored_domains_http_responses_total" ::
          ([host, port, kv.1.1, kv.1.2] ++ customVals)) (kv.2 : ℚ)) ms
  let g := alSet ms.gauges ("squid_monitored_domains_duration_seconds_avg" :: baseLabels) avgDuration
  let g := alSet g ("squid_monitored_domains_duration_seconds_p50" :: baseLabels) p50
  let g := alSet g ("squid_monitored_domains_duration_seconds_p90" :: baseLabels) p90
  let g := alSet g ("squid_monitored_domains_duration_seconds_p95" :: baseLabels) p95
  let g := alSet g ("squid_monitored_domains_duration_seconds_p99" :: baseLabels) p99
  let totalCache := cacheHits + cacheMisses
  let g := if 0 < totalCache then
      alSet g ("squid_monitored_domains_cache_hit_ratio" :: baseLabels)
        ((cacheHits : ℚ) / (totalCache : ℚ))
    else g
  { ms with gauges := g }

end Metrics

/-! ## Embedding of `internal/config/config.go` -/

structure LogFormatConfig where
  fields : List (String × Nat)
  durationUnit : String
  deriving DecidableEq

structure MonitoredDomain where
  host : String
  port : String
  labels : List (String × String)
  deriving DecidableEq

structure DomainPattern where
  pattern : String
  labels : List (String × String)
  deriving DecidableEq

structure Config where
  trackAllDomains : Bool
  maxDomains : Nat
  logFormat : LogFormatConfig
  monitoredDomains : List MonitoredDomain
  domainPatterns : List DomainPattern
  deriving DecidableEq

/-- Matching of a compiled domain pattern: `LoadConfig` quotes the pattern,
turns each `*` into `.*` and anchors it, so a pattern matches exactly the
glob language where `*` spans zero or more characters. -/
def globMatch : List Char → List Char → Bool
  | [], [] => true
  | [], _ :: _ => false
  | '*' :: ps, [] => globMatch ps []
  | '*' :: ps, c :: cs => globMatch ps (c :: cs) || globMatch ('*' :: ps) cs
  | _ :: _, [] => false
  | p :: ps, c :: cs => p == c && globMatch ps cs
termination_by p s => (p.length, s.length)

/-- `Config.GetField`. -/
def LogFormatConfig.GetField (c : LogFormatConfig) (fields : List String) (name : String) : String :=
  match c.fields.lookup name with
  | some idx => if idx < fields.length then fields.getD idx "" else ""
  | none => ""

/-- The `minFields` computation at the top of `Parser.parseLine`
(the largest configured field index, starting from 0). -/
def LogFormatConfig.maxFieldIdx (c : LogFormatConfig) : Nat :=
  c.fields.foldl (fun m kv => max m kv.2) 0

/-- `Config.IsMonitored`. -/
def Config.IsMonitored (cfg : Config) (host port : String) : Option MonitoredDomain :=
  match cfg.monitoredDomains.find?
      (fun d => d.host == host && (d.port == "" || d.port == port)) with
  | some d => some d
  | none =>
    match cfg.domainPatterns.find? (fun dp => globMatch dp.pattern.toList host.toList) with
    | some dp => some { host := host, port := port, labels := dp.labels }
    | none => none

/-! ## Embedding of the line-level helpers of the parser
(`internal/position/position.go`, package `parser`) -/

/-- `strings.HasPrefix` at the character level. -/
def listIsPrefix : List Char → List Char → Bool
  | [], _ => true
  | _ :: _, [] => false
  | a :: as, b :: bs => a == b && listIsPrefix as bs

/-- `strings.HasPrefix s pre` (Go argument order: string first). -/
def strStartsWith (s pre : String) : Bool := listIsPrefix pre.data s.data

/-- Dropping a number of leading characters of a string. -/
def strDrop (s : String) (n : Nat) : String := String.mk (s.data.drop n)

/-- One step of `splitPreservingQuotes`'s character loop.
State: fields emitted so far, current token, inside-quote flag. -/
def spqStep : List String × List Char × Bool → Char → List String × List Char × Bool
  | (fields, current, inQuote), c =>
    if c = '"' then (fields, current, !inQuote)
    else if c = ' ' && !inQuote then
      (if current.isEmpty then fields else fields ++ [String.mk current], [], inQuote)
    else (fields, current ++ [c], inQuote)

/-- `splitPreservingQuotes`. -/
def splitPreservingQuotes (s : String) : List String :=
  let st := s.toList.foldl spqStep ([], [], false)
  if st.2.1.isEmpty then st.1 else st.1 ++ [String.mk st.2.1]

/-- `strings.Split` with a one-character separator (used with "/" and ":"). -/
def splitCharAux (c : Char) : List Char → List Char → List String
  | [], acc => [String.mk acc.reverse]
  | x :: xs, acc =>
    if x = c then String.mk acc.reverse :: splitCharAux c xs []
    else splitCharAux c xs (x :: acc)

/-- `strings.Split s (String.singleton c)`. -/
def splitChar (c : Char) (s : String) : List String := splitCharAux c s.toList []

def digitVal (c : Char) : Nat := c.toNat - '0'.toNat

def digitsVal (cs : List Char) : Nat := cs.foldl (fun n c => 10 * n + digitVal c) 0

/-- Modelled behaviour of the external `strconv.ParseFloat` collaborator on
the decimal literals the log format produces (optional sign, digits, optional
fraction); other float syntaxes are treated as unparsable. -/
def parseFloat? (s : String) : Option ℚ :=
  let cs := s.toList
  let signed : ℚ × List Char :=
    match cs with
    | '-' :: r => (-1, r)
    | '+' :: r => (1, r)
    | _ => (1, cs)
  let sign := signed.1
  let cs := signed.2
  let intPart := cs.takeWhile Char.isDigit
  let rest := cs.dropWhile Char.isDigit
  match rest with
  | [] => if intPart.isEmpty then none else some (sign * (digitsVal intPart : ℚ))
  | '.' :: frac =>
    if frac.all Char.isDigit && !(intPart.isEmpty && frac.isEmpty) then
      some (sign * ((digitsVal intPart : ℚ) + (digitsVal frac : ℚ) / 10 ^ frac.length))
    else none
  | _ => none

/-- Modelled behaviour of the external `strconv.ParseInt(s, 10, 64)`
collaborator (optional sign, decimal digits, 64-bit range check). -/
def parseInt? (s : String) : Option Int :=
  let cs := s.toList
  let signed : Bool × List Char :=
    match cs with
    | '-' :: r => (true, r)
    | '+' :: r => (false, r)
    | _ => (false, cs)
  let neg := signed.1
  let cs := signed.2
  if cs.isEmpty || !cs.all Char.isDigit then none
  else
    let v : Int := if neg then -(digitsVal cs : Int) else (digitsVal cs : Int)
    if v < -(2 ^ 63) || 2 ^ 63 - 1 < v then none else some v

/-- `categorizeHTTPCode`. -/
def categorizeHTTPCode (code : String) : String :=
  match code.toList with
  | [] => "unknown"
  | c :: _ =>
    if c = '2' then "2xx"
    else if c = '3' then "3xx"
    else if c = '4' then "4xx"
    else if c = '5' then "5xx"
    else "other"

/-- `getDurationBucket`. -/
def getDurationBucket (seconds : ℚ) : String :=
  if seconds < 1/10 then "0.1"
  else if seconds < 1/2 then "0.5"
  else if seconds < 1 then "1"
  else if seconds < 5 then "5"
  else if seconds < 10 then "10"
  else "10+"

structure GoURL where
  scheme : String
  hostname : String
  port : String
  deriving DecidableEq

/-- Modelled behaviour of the external `net/url` collaborator
(`url.Parse` followed by `Hostname()`/`Port()`) on the absolute http/https
URLs the parser feeds it: the authority is what precedes the first `/`, `?`
or `#`; userinfo before the last `@` is stripped; the part after the last `:`
is the port when it is all digits, and a non-numeric port is a parse error.
IPv6 bracket addresses are not modelled. -/
def parseAuthority (scheme : String) (rest : String) : Option GoURL :=
  let authority := rest.data.takeWhile (fun c => c != '/' && c != '?' && c != '#')
  let hostport :=
    if authority.contains '@' then (authority.reverse.takeWhile (· != '@')).reverse
    else authority
  if hostport.contains ':' then
    let port := (hostport.reverse.takeWhile (· != ':')).reverse
    let host := hostport.take (hostport.length - (port.length + 1))
    if port.all Char.isDigit then some ⟨scheme, String.mk host, String.mk port⟩
    else none
  else some ⟨scheme, String.mk hostport, ""⟩

def urlParse? (urlStr : String) : Option GoURL :=
  if strStartsWith urlStr "http://" then parseAuthority "http" (strDrop urlStr 7)
  else parseAuthority "https" (strDrop urlStr 8)

/-- The internal-URL filter at the top of the URL handling in
`Parser.parseLine`. -/
def isInternalURL (u : String) : Bool :=
  strStartsWith u "cache_object://" || strStartsWith u "mgr://" ||
  strStartsWith u "internal://" || strStartsWith u "urn:"

/-- The host/port derivation of `Parser.parseLine` (CONNECT targets,
absolute http/https URLs, bare host:port values).  `none` is the
`url.Parse` error path, where the line is accepted but produces no
domain observation. -/
def classifyHostPort (method urlStr : String) : Option (String × String) :=
  if method = "CONNECT" then
    let hostPort := splitChar ':' urlStr
    some (hostPort.headD "", if 2 ≤ hostPort.length then hostPort.getD 1 "" else "443")
  else if strStartsWith urlStr "http://" || strStartsWith urlStr "https://" then
    match urlParse? urlStr with
    | none => none
    | some u =>
      let port := if u.port = "" then (if u.scheme = "https" then "443" else "80") else u.port
      some (u.hostname, port)
  else
    let hostPort := splitChar ':' urlStr
    some (hostPort.headD "", if 2 ≤ hostPort.length then hostPort.getD 1 "" else "80")

/-! ## Embedding of the parser's data model and per-line accumulation -/

/-- Increment of a Go `map[...]int` entry (`m[k]++`). -/
def alBump [DecidableEq κ] (m : List (κ × Nat)) (k : κ) : List (κ × Nat) :=
  alSet m k (alGet 0 m k + 1)

/-- `DomainData` (per-domain accumulator).  The nested
`map[code]map[category]int` is flattened to `(code, category)` keys; the
source only ever reads it through the nested double loop, for which the
flattening is equivalent. -/
structure DomainData where
  Requests : Nat
  BytesIn : Int
  BytesOut : Int
  ResponsesByCode : List ((String × String) × Nat)
  ResponsesByCategory : List (String × Nat)
  Durations : List ℚ
  CacheHits : Nat
  CacheMisses : Nat
  deriving DecidableEq

def emptyDomainData : DomainData :=
  { Requests := 0, BytesIn := 0, BytesOut := 0, ResponsesByCode := [],
    ResponsesByCategory := [], Durations := [], CacheHits := 0, CacheMisses := 0 }

/-- `Stats` (one run's accumulator).  `HTTPResponses` and `DomainData` are
flattened from nested maps to pair keys as above. -/
structure Stats where
  Connections : Nat
  RequestDurations : List (String × Nat)
  CacheStatuses : List (String × Nat)
  HTTPResponses : List ((String × String) × Nat)
  HTTPByCategory : List (String × Nat)
  DomainData : List ((String × String) × DomainData)
  deriving DecidableEq

def emptyStats : Stats :=
  { Connections := 0, RequestDurations := [], CacheStatuses := [],
    HTTPResponses := [], HTTPByCategory := [], DomainData := [] }

/-- `Parser.updateDomainStats`. -/
def updateDomainStats (stats : Stats) (host port : String) (bytes : Int)
    (httpCode category : String) (duration : ℚ) (cacheStatus : String) : Stats :=
  let data := alGet emptyDomainData stats.DomainData (host, port)
  let hit := strStartsWith cacheStatus "TCP_HIT" || strStartsWith cacheStatus "TCP_MEM_HIT"
  let miss := !hit && strStartsWith cacheStatus "TCP_MISS"
  let data := { data with
    Requests := data.Requests + 1,
    BytesOut := data.BytesOut + bytes,
    Durations := data.Durations ++ [duration],
    ResponsesByCode := alBump data.ResponsesByCode (httpCode, category),
    ResponsesByCategory := alBump data.ResponsesByCategory category,
    CacheHits := data.CacheHits + (if hit then 1 else 0),
    CacheMisses := data.CacheMisses + (if miss then 1 else 0) }
  { stats with DomainData := alSet stats.DomainData (host, port) data }

/-- `Parser.parseLine`.  The Go function mutates `stats` and returns an
`error`; here it returns the updated `Stats` or the error message. -/
def parseLine (cfg : Config) (line : String) (stats : Stats) : Except String Stats :=
  let fields := splitPreservingQuotes line
  let minFields := cfg.logFormat.maxFieldIdx
  if fields.length ≤ minFields then .error "invalid log line format"
  else
    let elapsed := cfg.logFormat.GetField fields "duration"
    let resultCode := cfg.logFormat.GetField fields "result_code"
    let bytes := cfg.logFormat.GetField fields "bytes"
    let method := cfg.logFormat.GetField fields "method"
    let urlStr := cfg.logFormat.GetField fields "url"
    let parts := splitChar '/' resultCode
    if parts.length ≠ 2 then .error "invalid result code format"
    else
      let cacheStatus := parts.headD ""
      let httpCode := parts.getD 1 ""
      let category := categorizeHTTPCode httpCode
      let duration := (parseFloat? elapsed).getD 0
      let durationSeconds :=
        if cfg.logFormat.durationUnit = "ms" then duration / 1000 else duration
      let bytesInt := (parseInt? bytes).getD 0
      let stats := { stats with
        Connections := stats.Connections + 1,
        RequestDurations := alBump stats.RequestDurations (getDurationBucket durationSeconds),
        CacheStatuses := alBump stats.CacheStatuses cacheStatus,
        HTTPResponses := alBump stats.HTTPResponses (httpCode, category),
        HTTPByCategory := alBump stats.HTTPByCategory category }
      if isInternalURL urlStr then .ok stats
      else
        match classifyHostPort method urlStr with
        | none => .ok stats
        | some hp =>
          if hp.1 = "" ∨ hp.1 = "-" ∨ hp.1 = "localhost" then .ok stats
          else .ok (updateDomainStats stats hp.1 hp.2 bytesInt httpCode category
            durationSeconds cacheStatus)

/-- `calculatePercentile`.  The Go index `int(float64(len(sorted)) *
percentile)` is exact floor for the four constants 0.50/0.90/0.95/0.99 the
program uses (each rounds up in binary, by far less than the distance to the
next integer), so it is embedded as the rational floor. -/
def calculatePercentile (durations : List ℚ) (percentile : ℚ) : ℚ :=
  if durations.isEmpty then 0
  else
    let sorted := durations.insertionSort (· ≤ ·)
    let index := (⌊(sorted.length : ℚ) * percentile⌋).toNat
    let index := if sorted.length ≤ index then sorted.length - 1 else index
    sorted.getD index 0

/-! ## Embedding of `Parser.updateMetrics` -/

/-- `Parser` state surviving across runs (`allDomainsSeen`; insertion-ordered
set). -/
structure ParserState where
  allDomainsSeen : List String
  deriving DecidableEq

/-- The `other*` accumulators local to one `updateMetrics` call. -/
structure OtherAcc where
  requests : ℚ
  bytesIn : ℚ
  bytesOut : ℚ
  byCategory : List (String × Nat)
  deriving DecidableEq

def emptyOtherAcc : OtherAcc :=
  { requests := 0, bytesIn := 0, bytesOut := 0, byCategory := [] }

/-- The admission decision of the domain loop in `Parser.updateMetrics`:
a key already seen is tracked; otherwise it is added and tracked exactly
when the seen-set is below `maxDomains`. -/
def admitDomain (maxDomains : Nat) (seen : List String) (domainKey : String) :
    Bool × List String :=
  if seen.contains domainKey then (true, seen)
  else if seen.length < maxDomains then (true, seen ++ [domainKey])
  else (false, seen)

/-- The `TrackAllDomains` part of the domain loop body in
`Parser.updateMetrics`: admit the key, then either update the individual
all-domains series or fold the entry into the `other*` accumulators. -/
def domainStepTrack (cfg : Config) (acc : ParserState × OtherAcc × MetricsState)
    (entry : (String × String) × DomainData) : ParserState × OtherAcc × MetricsState :=
  let ps := acc.1
  let other := acc.2.1
  let ms := acc.2.2
  let host := entry.1.1
  let port := entry.1.2
  let data := entry.2
  let domainKey := host ++ ":" ++ port
  if cfg.trackAllDomains then
    let tracked := admitDomain cfg.maxDomains ps.allDomainsSeen domainKey
    if tracked.1 then
      (⟨tracked.2⟩, other,
        Metrics.UpdateAllDomains ms host port (data.Requests : ℚ) (data.BytesIn : ℚ)
          (data.BytesOut : ℚ) data.ResponsesByCategory)
    else
      (⟨tracked.2⟩,
        { requests := other.requests + (data.Requests : ℚ),
          bytesIn := other.bytesIn + (data.BytesIn : ℚ),
          bytesOut := other.bytesOut + (data.BytesOut : ℚ),
          byCategory := data.ResponsesByCategory.foldl
            (fun m kv => alSet m kv.1 (alGet 0 m kv.1 + kv.2)) other.byCategory },
        ms)
  else (ps, other, ms)

/-- The body of the domain loop in `Parser.updateMetrics` for one
`(host, port, data)` entry: the all-domains part followed by the
monitored-domain part. -/
def domainStep (cfg : Config) (acc : ParserState × OtherAcc × MetricsState)
    (entry : (String × String) × DomainData) : ParserState × OtherAcc × MetricsState :=
  let host := entry.1.1
  let port := entry.1.2
  let data := entry.2
  let step1 := domainStepTrack cfg acc entry
  match cfg.IsMonitored host port with
  | none => step1
  | some md =>
    let avgDuration :=
      if data.Durations.isEmpty then 0 else data.Durations.sum / (data.Durations.length : ℚ)
    let p50 := calculatePercentile data.Durations (0.50 : ℚ)
    let p90 := calculatePercentile data.Durations (0.90 : ℚ)
    let p95 := calculatePercentile data.Durations (0.95 : ℚ)
    let p99 := calculatePercentile data.Durations (0.99 : ℚ)
    (step1.1, step1.2.1,
      Metrics.UpdateMonitoredDomain step1.2.2 host port md.labels (data.Requests : ℚ)
        (data.BytesIn : ℚ) (data.BytesOut : ℚ) data.ResponsesByCode
        avgDuration p50 p90 p95 p99 data.CacheHits data.CacheMisses)

/-- The global-statistics prefix of `Parser.updateMetrics`:
`SetConnections` followed by the three map loops. -/
def setGlobalStats (stats : Stats) (ms : MetricsState) : MetricsState :=
  let ms := Metrics.SetConnections ms stats.Connections
  let ms := stats.RequestDurations.foldl (fun ms kv => Metrics.SetRequestDuration ms kv.1 kv.2) ms
  let ms := stats.CacheStatuses.foldl (fun ms kv => Metrics.SetCacheStatus ms kv.1 kv.2) ms
  stats.HTTPResponses.foldl (fun ms kv => Metrics.SetHTTPResponse ms kv.1.1 kv.1.2 kv.2) ms

/-- `Parser.updateMetrics`: the global metrics, the domain loop, and the
final `__other__` update when untracked traffic was aggregated. -/
def updateMetrics (cfg : Config) (stats : Stats) (ps : ParserState) (ms : MetricsState) :
    ParserState × MetricsState :=
  let ms := setGlobalStats stats ms
  let res := stats.DomainData.foldl (domainStep cfg) (ps, emptyOtherAcc, ms)
  let other := res.2.1
  let ms :=
    if cfg.trackAllDomains && decide (0 < other.requests) then
      Metrics.UpdateAllDomains res.2.2 "__other__" "0" other.requests other.bytesIn
        other.bytesOut other.byCategory
    else res.2.2
  (res.1, ms)

/-! ## Embedding of `Parser.Parse` (one aggregation run) -/

/-- The tracked log file: its inode and its newline-terminated lines.
Byte offsets are measured by `byteSize` (each line costs its length plus the
newline). -/
structure SquidFile where
  inode : Nat
  lines : List String
  deriving DecidableEq

def byteSize (f : SquidFile) : Nat := (f.lines.map (fun l => l.length + 1)).sum

/-- `position.Position` as used by the parser (byte offset and inode). -/
structure Position where
  pos : Nat
  inode : Nat
  deriving DecidableEq

/-- The rotation check of `Parser.Parse`: the stored offset is discarded when
the current inode differs from a nonzero stored inode. -/
def effectiveStart (stored : Position) (currentInode : Nat) : Nat :=
  if currentInode ≠ stored.inode ∧ stored.inode ≠ 0 then 0 else stored.pos

/-- Reading the file from a byte offset: whole lines before the offset are
skipped; an offset inside a line yields that line's tail first (what a
scanner started mid-line reads); an offset at or past EOF yields nothing. -/
def dropBytes : List String → Nat → List String
  | ls, 0 => ls
  | [], _ => []
  | l :: ls, off =>
    if l.length + 1 ≤ off then dropBytes ls (off - (l.length + 1))
    else (l.drop off) :: ls

/-- The scan loop of `Parser.Parse`: fold `parseLine` over the scanned lines,
skipping (only logging) lines that fail to parse. -/
def runStats (cfg : Config) (lines : List String) : Stats :=
  lines.foldl
    (fun st line => match parseLine cfg line st with | .ok st' => st' | .error _ => st)
    emptyStats

/-- `Parser.Parse`, one aggregation run: load the stored position, apply the
rotation check, seek, scan the remaining lines, apply `updateMetrics`, and
save the final position with the current inode.  The periodic every-1000-lines
saves are overwritten by the final save and therefore not modelled.  A seek
beyond EOF succeeds and reads nothing, leaving the offset where it was seeked
to, hence the `max` in the final position. -/
def runParse (cfg : Config) (f : SquidFile) (stored : Position) (ps : ParserState)
    (ms : MetricsState) : Position × ParserState × MetricsState :=
  let start := effectiveStart stored f.inode
  let scanned := dropBytes f.lines start
  let stats := runStats cfg scanned
  let psms := updateMetrics cfg stats ps ms
  ({ pos := max start (byteSize f), inode := f.inode }, psms.1, psms.2)

/-- The position-reset logic of the v1 `MetricsCollector.parseNewEntries`
(`squid_log_exporter.go`): rotation (any inode change) and truncation
(stored offset beyond the file size) both reset the offset to zero. -/
def resetPosition (lastPosition : Int) (lastInode currentInode : Nat)
    (fileSize : Int) : Int :=
  if lastInode ≠ currentInode then 0
  else if fileSize < lastPosition then 0
  else lastPosition

/-- A small custom log format (six fields, duration in milliseconds) used for
concrete examples. -/
def exampleConfig : Config :=
  { trackAllDomains := false, maxDomains := 0,
    logFormat :=
      { fields := [("timestamp", 0), ("duration", 1), ("result_code", 2), ("bytes", 3),
          ("method", 4), ("url", 5)],
        durationUnit := "ms" },
    monitoredDomains := [], domainPatterns := [] }

/-- All exported counter series of `m₂` are at least those of `m₁`
(an absent series counts as 0, matching a counter that was never `Add`ed). -/
def countersLE (m₁ m₂ : MetricsState) : Prop :=
  ∀ ck : List String, alGet 0 m₁.counters ck ≤ alGet 0 m₂.counters ck

/-- A character that can occur in a clean hostname: not a delimiter the
authority parser splits on. -/
def cleanHostChar (c : Char) : Prop :=
  c ≠ ':' ∧ c ≠ '/' ∧ c ≠ '?' ∧ c ≠ '#' ∧ c ≠ '@'

instance : DecidablePred cleanHostChar := fun c => by
  unfold cleanHostChar
  infer_instance

/-- The per-run cache accounting invariant: for every per-domain accumulator,
hits plus misses never exceed requests. -/
def cacheInv (stats : Stats) : Prop :=
  ∀ key : String × String,
    (alGet emptyDomainData stats.DomainData key).CacheHits
      + (alGet emptyDomainData stats.DomainData key).CacheMisses
      ≤ (alGet emptyDomainData stats.DomainData key).Requests

/-- The `domainKey := host + ":" + port` join of the domain loop. -/
def domKey (e : (String × String) × DomainData) : String := e.1.1 ++ ":" ++ e.1.2

/-- Replay of the seen-set evolution of the domain loop. -/
def seenAfter (k : Nat) : List String → List ((String × String) × DomainData) → List String
  | seen, [] => seen
  | seen, e :: rest => seenAfter k (admitDomain k seen (domKey e)).2 rest

/-- The sum of the request counts of the entries the domain loop does not
admit individually (the traffic aggregated into the overflow series). -/
def excludedRequests (k : Nat) : List String → List ((String × String) × DomainData) → ℚ
  | _, [] => 0
  | seen, e :: rest =>
    (if (admitDomain k seen (domKey e)).1 then 0 else (e.2.Requests : ℚ))
      + excludedRequests k (admitDomain k seen (domKey e)).2 rest

/-- Invariant tying the individual all-domains request series to the seen-set
during the domain loop: series keys are duplicate-free, the overflow series
does not exist yet, and every individual request series stems from an
admitted domain key. -/
def countersInv (seen : List String) (ms : MetricsState) : Prop :=
  (alKeys ms.counters).Nodup
  ∧ ["squid_all_domains_requests_total", "__other__", "0"] ∉ alKeys ms.counters
  ∧ ∀ ck ∈ alKeys ms.counters,
      ck.headD "" = "squid_all_domains_requests_total" →
      ∃ h p, ck = ["squid_all_domains_requests_total", h, p]
        ∧ (':' : Char) ∉ h.data ∧ (h ++ ":" ++ p) ∈ seen

/-- The series bookkeeping that survives the final overflow update: keys are
duplicate-free and every individual (non-overflow) all-domains request series
stems from a seen domain key. -/
def countersPost (seen : List String) (ms : MetricsState) : Prop :=
  (alKeys ms.counters).Nodup
  ∧ ∀ ck ∈ alKeys ms.counters,
      ck.headD "" = "squid_all_domains_requests_total" →
      ck ≠ ["squid_all_domains_requests_total", "__other__", "0"] →
      ∃ h p, ck = ["squid_all_domains_requests_total", h, p]
        ∧ (':' : Char) ∉ h.data ∧ (h ++ ":" ++ p) ∈ seen

/-- A two-domain ingest against `maxDomains = 1` used to witness the amended
C3 theorem. -/
def exampleC3Config : Config :=
  { trackAllDomains := true, maxDomains := 1,
    logFormat := { fields := [], durationUnit := "ms" },
    monitoredDomains := [], domainPatterns := [] }

def exampleC3Stats : Stats :=
  { emptyStats with DomainData :=
      [(("a", "80"), { emptyDomainData with Requests := 1 }),
       (("b", "80"), { emptyDomainData with Requests := 2 })] }


/-! ## Generic lemmas about the embedded state -/

@[simp] theorem alGet_nil [DecidableEq κ] (d : β) (k : κ) : alGet d [] k = d := rfl

@[simp] theorem alGet_cons [DecidableEq κ] (d : β) (k' : κ) (v : β) (rest : List (κ × β)) (k : κ) :
    alGet d ((k', v) :: rest) k = if k' = k then v else alGet d rest k := rfl

theorem alGet_alSet_self [DecidableEq κ] (d : β) (m : List (κ × β)) (k : κ) (v : β) :
    alGet d (alSet m k v) k = v := by
  induction m with
  | nil => simp [alSet]
  | cons p rest ih =>
    obtain ⟨k', v'⟩ := p
    by_cases h : k' = k <;> simp [alSet, h, ih]

theorem alGet_alSet_ne [DecidableEq κ] (d : β) (m : List (κ × β)) (k k₀ : κ) (v : β)
    (hne : k ≠ k₀) : alGet d (alSet m k v) k₀ = alGet d m k₀ := by
  induction m with
  | nil => simp [alSet, hne]
  | cons p rest ih =>
    obtain ⟨k', v'⟩ := p
    by_cases h : k' = k
    · subst h; simp [alSet, hne]
    · simp only [alSet, if_neg h, alGet_cons]
      by_cases h' : k' = k₀ <;> simp [h', ih]

theorem alKeys_alSet [DecidableEq κ] (m : List (κ × β)) (k : κ) (v : β) :
    alKeys (alSet m k v) = if k ∈ alKeys m then alKeys m else alKeys m ++ [k] := by
  induction m with
  | nil => simp [alSet, alKeys]
  | cons p rest ih =>
    obtain ⟨k', v'⟩ := p
    by_cases h : k' = k
    · subst h; simp [alSet, alKeys]
    · have h' : ¬ k = k' := fun hh => h hh.symm
      have hcond : (k ∈ alKeys ((k', v') :: rest)) ↔ k ∈ alKeys rest := by
        simp [alKeys, h']
      have hstep : alKeys (alSet ((k', v') :: rest) k v) = k' :: alKeys (alSet rest k v) := by
        simp [alSet, h, alKeys]
      rw [hstep, ih]
      by_cases hm : k ∈ alKeys rest
      · rw [if_pos hm, if_pos (hcond.mpr hm)]
        simp [alKeys]
      · rw [if_neg hm, if_neg (fun hh => hm (hcond.mp hh))]
        simp [alKeys]

theorem alKeys_alSet_mem [DecidableEq κ] (m : List (κ × β)) (k : κ) (v : β)
    (h : k ∈ alKeys m) : alKeys (alSet m k v) = alKeys m := by
  rw [alKeys_alSet, if_pos h]

theorem mem_alKeys_alSet [DecidableEq κ] (m : List (κ × β)) (k k₀ : κ) (v : β) :
    k₀ ∈ alKeys (alSet m k v) ↔ k₀ ∈ alKeys m ∨ k₀ = k := by
  rw [alKeys_alSet]
  by_cases h : k ∈ alKeys m
  · simp only [if_pos h]
    constructor
    · exact fun hh => Or.inl hh
    · rintro (hh | rfl) <;> [exact hh; exact h]
  · simp [if_neg h, or_comm]


theorem alGet_of_not_mem [DecidableEq κ] (d : β) (m : List (κ × β)) (k : κ)
    (h : k ∉ alKeys m) : alGet d m k = d := by
  induction m with
  | nil => rfl
  | cons p rest ih =>
    obtain ⟨k', v'⟩ := p
    have hk : k' ≠ k := by
      intro hh
      exact h (by simp [alKeys, hh])
    have : k ∉ alKeys rest := fun hh => h (by simp [alKeys] at hh ⊢; exact Or.inr hh)
    simp [alGet, hk, ih this]

theorem pipe_mem_makeKey (x y : String) (rest : List String) :
    '|' ∈ (Metrics.makeKey (x :: y :: rest)).data := by
  show '|' ∈ (x ++ "|" ++ Metrics.makeKey (y :: rest)).data
  rw [String.data_append, String.data_append]
  simp [String.data]

theorem makeKey_ne_connections (x y : String) (rest : List String) :
    Metrics.makeKey (x :: y :: rest) ≠ "connections" := by
  intro h
  have := pipe_mem_makeKey x y rest
  rw [h] at this
  simp [String.data] at this

namespace Metrics

theorem applyDelta_lastSeen_self (ms : MetricsState) (lk : String) (ck : List String) (v : ℚ) :
    alGet 0 (applyDelta ms lk ck v).lastSeen lk = v := by
  simp [applyDelta, alGet_alSet_self]

theorem applyDelta_lastSeen_ne (ms : MetricsState) (lk : String) (ck : List String) (v : ℚ)
    (lk' : String) (h : lk ≠ lk') :
    alGet 0 (applyDelta ms lk ck v).lastSeen lk' = alGet 0 ms.lastSeen lk' := by
  simp [applyDelta, alGet_alSet_ne _ _ _ _ _ h]

theorem applyDelta_counters (ms : MetricsState) (lk : String) (ck : List String) (v : ℚ) :
    (applyDelta ms lk ck v).counters =
      if 0 < v - alGet 0 ms.lastSeen lk
      then alSet ms.counters ck (alGet 0 ms.counters ck + (v - alGet 0 ms.lastSeen lk))
      else ms.counters := rfl

theorem applyDelta_customLabelKeys (ms : MetricsState) (lk : String) (ck : List String) (v : ℚ) :
    (applyDelta ms lk ck v).customLabelKeys = ms.customLabelKeys := rfl

end Metrics

/-- C1: for every metric key and supplied absolute value, the counter-delta
engine (the block shared by `SetConnections`, `SetRequestDuration`,
`SetCacheStatus`, `SetHTTPResponse`, `UpdateAllDomains` and
`UpdateMonitoredDomain`) computes `delta = newValue - previous` (previous
defaulting to zero for an unseen key), adds `delta` to the exported counter
exactly when `delta > 0` and otherwise leaves the counter state untouched,
and in every case overwrites the stored absolute value with the new value. -/
theorem C1_counter_delta_engine (ms : MetricsState) (lk : String) (ck : List String) (v : ℚ) :
    (lk ∉ alKeys ms.lastSeen → alGet 0 ms.lastSeen lk = 0)
    ∧ alGet 0 (Metrics.applyDelta ms lk ck v).lastSeen lk = v
    ∧ (0 < v - alGet 0 ms.lastSeen lk →
        alGet 0 (Metrics.applyDelta ms lk ck v).counters ck
          = alGet 0 ms.counters ck + (v - alGet 0 ms.lastSeen lk))
    ∧ (¬ 0 < v - alGet 0 ms.lastSeen lk →
        (Metrics.applyDelta ms lk ck v).counters = ms.counters) := by
  refine ⟨fun h => alGet_of_not_mem _ _ _ h, Metrics.applyDelta_lastSeen_self ms lk ck v, ?_, ?_⟩
  · intro h
    rw [Metrics.applyDelta_counters, if_pos h, alGet_alSet_self]
  · intro h
    rw [Metrics.applyDelta_counters, if_neg h]

/-- Witness for C1 at a concrete input: previous value 5, new value 2,
delta ≤ 0, so the stored value is overwritten and the counter map is
untouched. -/
theorem C1_counter_delta_engine_witness :
    alGet 0 (Metrics.applyDelta ⟨[], [("k", 5)], [(["c"], 7)], []⟩ "k" ["c"] 2).lastSeen "k" = 2
    ∧ (Metrics.applyDelta ⟨[], [("k", 5)], [(["c"], 7)], []⟩ "k" ["c"] 2).counters
        = [(["c"], 7)] :=
  ⟨(C1_counter_delta_engine ⟨[], [("k", 5)], [(["c"], 7)], []⟩ "k" ["c"] 2).2.1,
   (C1_counter_delta_engine ⟨[], [("k", 5)], [(["c"], 7)], []⟩ "k" ["c"] 2).2.2.2
     (by norm_num [alGet])⟩

/-! ## Monotonicity of the exported counters (for C2) -/

theorem countersLE_refl (m : MetricsState) : countersLE m m := fun _ => le_refl _

theorem countersLE_of_counters_eq {m₁ m₂ : MetricsState} (h : m₁.counters = m₂.counters) :
    countersLE m₁ m₂ := fun ck => by rw [h]

theorem countersLE_trans {m₁ m₂ m₃ : MetricsState}
    (h₁ : countersLE m₁ m₂) (h₂ : countersLE m₂ m₃) : countersLE m₁ m₃ :=
  fun ck => le_trans (h₁ ck) (h₂ ck)

namespace Metrics

theorem applyDelta_countersLE (ms : MetricsState) (lk : String) (ck : List String) (v : ℚ) :
    countersLE ms (applyDelta ms lk ck v) := by
  intro ck'
  rw [applyDelta_counters]
  by_cases h : 0 < v - alGet 0 ms.lastSeen lk
  · rw [if_pos h]
    by_cases hc : ck = ck'
    · subst hc
      rw [alGet_alSet_self]
      linarith
    · rw [alGet_alSet_ne _ _ _ _ _ hc]
  · rw [if_neg h]

theorem SetConnections_countersLE (ms : MetricsState) (c : Nat) :
    countersLE ms (SetConnections ms c) := applyDelta_countersLE _ _ _ _

theorem SetRequestDuration_countersLE (ms : MetricsState) (i : String) (c : Nat) :
    countersLE ms (SetRequestDuration ms i c) := applyDelta_countersLE _ _ _ _

theorem SetCacheStatus_countersLE (ms : MetricsState) (s : String) (c : Nat) :
    countersLE ms (SetCacheStatus ms s c) := applyDelta_countersLE _ _ _ _

theorem SetHTTPResponse_countersLE (ms : MetricsState) (code cat : String) (c : Nat) :
    countersLE ms (SetHTTPResponse ms code cat c) := applyDelta_countersLE _ _ _ _

end Metrics

theorem foldl_countersLE {α : Type} (f : MetricsState → α → MetricsState)
    (hf : ∀ ms a, countersLE ms (f ms a)) :
    ∀ (l : List α) (ms : MetricsState), countersLE ms (l.foldl f ms)
  | [], ms => countersLE_refl ms
  | a :: t, ms => countersLE_trans (hf ms a) (foldl_countersLE f hf t (f ms a))

/-- Variant of `foldl_countersLE` taking the list first, so that the element
type is known before the step function is elaborated. -/
theorem foldl_countersLE' {α : Type} (l : List α) (f : MetricsState → α → MetricsState)
    (hf : ∀ ms a, countersLE ms (f ms a)) (ms : MetricsState) :
    countersLE ms (l.foldl f ms) := foldl_countersLE f hf l ms

namespace Metrics

theorem countersLE_setGauges {m₁ X : MetricsState} (g : List (List String × ℚ))
    (h : countersLE m₁ X) :
    countersLE m₁ ⟨X.customLabelKeys, X.lastSeen, X.counters, g⟩ := fun ck => h ck

theorem UpdateAllDomains_countersLE (ms : MetricsState) (host port : String)
    (requests bytesIn bytesOut : ℚ) (cats : List (String × Nat)) :
    countersLE ms (UpdateAllDomains ms host port requests bytesIn bytesOut cats) := by
  simp only [UpdateAllDomains]
  refine countersLE_trans ?_
    (foldl_countersLE' cats _ (fun ms a => applyDelta_countersLE _ _ _ _) _)
  refine countersLE_trans ?_ (applyDelta_countersLE _ _ _ _)
  refine countersLE_trans ?_ (applyDelta_countersLE _ _ _ _)
  exact applyDelta_countersLE _ _ _ _

theorem UpdateMonitoredDomain_countersLE (ms : MetricsState) (host port : String)
    (labels : List (String × String)) (requests bytesIn bytesOut : ℚ)
    (codes : List ((String × String) × Nat)) (avg p50 p90 p95 p99 : ℚ)
    (hits misses : Nat) :
    countersLE ms (UpdateMonitoredDomain ms host port labels requests bytesIn bytesOut codes
      avg p50 p90 p95 p99 hits misses) := by
  simp only [UpdateMonitoredDomain]
  refine countersLE_setGauges _ ?_
  refine countersLE_trans ?_
    (foldl_countersLE' codes _ (fun ms a => applyDelta_countersLE _ _ _ _) _)
  refine countersLE_trans ?_ (applyDelta_countersLE _ _ _ _)
  refine countersLE_trans ?_ (applyDelta_countersLE _ _ _ _)
  exact applyDelta_countersLE _ _ _ _

end Metrics

theorem domainStepTrack_countersLE (cfg : Config) (acc : ParserState × OtherAcc × MetricsState)
    (entry : (String × String) × DomainData) :
    countersLE acc.2.2 (domainStepTrack cfg acc entry).2.2 := by
  simp only [domainStepTrack]
  split
  · split
    · exact Metrics.UpdateAllDomains_countersLE _ _ _ _ _ _ _
    · exact countersLE_refl _
  · exact countersLE_refl _

theorem domainStep_countersLE (cfg : Config) (acc : ParserState × OtherAcc × MetricsState)
    (entry : (String × String) × DomainData) :
    countersLE acc.2.2 (domainStep cfg acc entry).2.2 := by
  simp only [domainStep]
  split
  · exact domainStepTrack_countersLE cfg acc entry
  · exact countersLE_trans (domainStepTrack_countersLE cfg acc entry)
      (Metrics.UpdateMonitoredDomain_countersLE _ _ _ _ _ _ _ _ _ _ _ _ _ _ _)

theorem foldl_domainStep_countersLE (cfg : Config) :
    ∀ (l : List ((String × String) × DomainData)) (acc : ParserState × OtherAcc × MetricsState),
      countersLE acc.2.2 (l.foldl (domainStep cfg) acc).2.2
  | [], _ => countersLE_refl _
  | e :: t, acc =>
    countersLE_trans (domainStep_countersLE cfg acc e)
      (foldl_domainStep_countersLE cfg t (domainStep cfg acc e))

set_option maxHeartbeats 2000000 in
theorem setGlobalStats_countersLE (stats : Stats) (ms : MetricsState) :
    countersLE ms (setGlobalStats stats ms) := by
  simp only [setGlobalStats]
  refine countersLE_trans ?_
    (foldl_countersLE' stats.HTTPResponses _
      (fun ms kv => Metrics.SetHTTPResponse_countersLE ms kv.1.1 kv.1.2 kv.2) _)
  refine countersLE_trans ?_
    (foldl_countersLE' stats.CacheStatuses _
      (fun ms kv => Metrics.SetCacheStatus_countersLE ms kv.1 kv.2) _)
  refine countersLE_trans ?_
    (foldl_countersLE' stats.RequestDurations _
      (fun ms kv => Metrics.SetRequestDuration_countersLE ms kv.1 kv.2) _)
  exact Metrics.SetConnections_countersLE _ _

theorem updateMetrics_countersLE (cfg : Config) (stats : Stats) (ps : ParserState)
    (ms : MetricsState) : countersLE ms (updateMetrics cfg stats ps ms).2 := by
  have h1 := setGlobalStats_countersLE stats ms
  simp only [updateMetrics]
  generalize hg : setGlobalStats stats ms = ms1 at h1 ⊢
  have h2 : countersLE ms
      (List.foldl (domainStep cfg) (ps, emptyOtherAcc, ms1) stats.DomainData).2.2 :=
    countersLE_trans h1 (foldl_domainStep_countersLE cfg stats.DomainData (ps, emptyOtherAcc, ms1))
  generalize hg2 :
    List.foldl (domainStep cfg) (ps, emptyOtherAcc, ms1) stats.DomainData = res at h2 ⊢
  split
  · exact countersLE_trans h2 (Metrics.UpdateAllDomains_countersLE _ _ _ _ _ _ _)
  · exact h2

theorem runParse_countersLE (cfg : Config) (f : SquidFile) (stored : Position)
    (ps : ParserState) (ms : MetricsState) :
    countersLE ms (runParse cfg f stored ps ms).2.2 := by
  simp only [runParse]
  exact updateMetrics_countersLE _ _ _ _

/-- C2: for every exported counter and every pair of consecutive aggregation
runs (the second starting from the state the first left behind), the
counter's value after the later run is at least its value after the earlier
run — no exported counter ever decreases.  The runs may see different file
contents and configurations. -/
theorem C2_counters_monotone (cfg₁ cfg₂ : Config) (f₁ f₂ : SquidFile) (stored : Position)
    (ps : ParserState) (ms : MetricsState) (ck : List String) :
    alGet 0 (runParse cfg₁ f₁ stored ps ms).2.2.counters ck ≤
      alGet 0 (runParse cfg₂ f₂ (runParse cfg₁ f₁ stored ps ms).1
        (runParse cfg₁ f₁ stored ps ms).2.1 (runParse cfg₁ f₁ stored ps ms).2.2).2.2.counters ck :=
  runParse_countersLE cfg₂ f₂ _ _ _ ck

/-! ## Idempotence of a re-read on an unchanged file (for C4) -/

theorem foldl_lastSeen_ne {α : Type} (l : List α) (f : MetricsState → α → MetricsState)
    (k : String) (hf : ∀ ms a, alGet 0 (f ms a).lastSeen k = alGet 0 ms.lastSeen k) :
    ∀ ms : MetricsState, alGet 0 (List.foldl f ms l).lastSeen k = alGet 0 ms.lastSeen k := by
  induction l with
  | nil => intro ms; rfl
  | cons a t ih => intro ms; rw [List.foldl_cons, ih, hf]

namespace Metrics

theorem UpdateAllDomains_lastSeen_conn (ms : MetricsState) (host port : String)
    (requests bytesIn bytesOut : ℚ) (cats : List (String × Nat)) :
    alGet 0 (UpdateAllDomains ms host port requests bytesIn bytesOut cats).lastSeen "connections"
      = alGet 0 ms.lastSeen "connections" := by
  simp only [UpdateAllDomains]
  rw [foldl_lastSeen_ne cats _ _
    (fun ms kv => applyDelta_lastSeen_ne ms _ _ _ _ (makeKey_ne_connections _ _ _))]
  rw [applyDelta_lastSeen_ne _ _ _ _ _ (makeKey_ne_connections _ _ _)]
  rw [applyDelta_lastSeen_ne _ _ _ _ _ (makeKey_ne_connections _ _ _)]
  exact applyDelta_lastSeen_ne _ _ _ _ _ (makeKey_ne_connections _ _ _)

theorem UpdateMonitoredDomain_lastSeen_conn (ms : MetricsState) (host port : String)
    (labels : List (String × String)) (requests bytesIn bytesOut : ℚ)
    (codes : List ((String × String) × Nat)) (avg p50 p90 p95 p99 : ℚ)
    (hits misses : Nat) :
    alGet 0 (UpdateMonitoredDomain ms host port labels requests bytesIn bytesOut codes
        avg p50 p90 p95 p99 hits misses).lastSeen "connections"
      = alGet 0 ms.lastSeen "connections" := by
  simp only [UpdateMonitoredDomain]
  rw [show (⟨_, _, _, _⟩ : MetricsState).lastSeen = _ from rfl]
  rw [foldl_lastSeen_ne codes _ _
    (fun ms kv => applyDelta_lastSeen_ne ms _ _ _ _ (makeKey_ne_connections _ _ _))]
  rw [applyDelta_lastSeen_ne _ _ _ _ _ (makeKey_ne_connections _ _ _)]
  rw [applyDelta_lastSeen_ne _ _ _ _ _ (makeKey_ne_connections _ _ _)]
  exact applyDelta_lastSeen_ne _ _ _ _ _ (makeKey_ne_connections _ _ _)

end Metrics

theorem domainStepTrack_lastSeen_conn (cfg : Config) (acc : ParserState × OtherAcc × MetricsState)
    (entry : (String × String) × DomainData) :
    alGet 0 (domainStepTrack cfg acc entry).2.2.lastSeen "connections"
      = alGet 0 acc.2.2.lastSeen "connections" := by
  simp only [domainStepTrack]
  split
  · split
    · exact Metrics.UpdateAllDomains_lastSeen_conn _ _ _ _ _ _ _
    · rfl
  · rfl

theorem domainStep_lastSeen_conn (cfg : Config) (acc : ParserState × OtherAcc × MetricsState)
    (entry : (String × String) × DomainData) :
    alGet 0 (domainStep cfg acc entry).2.2.lastSeen "connections"
      = alGet 0 acc.2.2.lastSeen "connections" := by
  simp only [domainStep]
  split
  · exact domainStepTrack_lastSeen_conn cfg acc entry
  · rw [Metrics.UpdateMonitoredDomain_lastSeen_conn]
    exact domainStepTrack_lastSeen_conn cfg acc entry

theorem foldl_domainStep_lastSeen_conn (cfg : Config) :
    ∀ (l : List ((String × String) × DomainData)) (acc : ParserState × OtherAcc × MetricsState),
      alGet 0 (l.foldl (domainStep cfg) acc).2.2.lastSeen "connections"
        = alGet 0 acc.2.2.lastSeen "connections"
  | [], _ => rfl
  | e :: t, acc => by
    rw [List.foldl_cons, foldl_domainStep_lastSeen_conn cfg t (domainStep cfg acc e),
      domainStep_lastSeen_conn]

theorem setGlobalStats_lastSeen_conn (stats : Stats) (ms : MetricsState) :
    alGet 0 (setGlobalStats stats ms).lastSeen "connections" = (stats.Connections : ℚ) := by
  have hrd : ∀ (ms : MetricsState) (kv : String × Nat),
      alGet 0 (Metrics.SetRequestDuration ms kv.1 kv.2).lastSeen "connections"
        = alGet 0 ms.lastSeen "connections" :=
    fun ms kv => Metrics.applyDelta_lastSeen_ne ms _ _ _ _ (makeKey_ne_connections _ _ _)
  have hcs : ∀ (ms : MetricsState) (kv : String × Nat),
      alGet 0 (Metrics.SetCacheStatus ms kv.1 kv.2).lastSeen "connections"
        = alGet 0 ms.lastSeen "connections" :=
    fun ms kv => Metrics.applyDelta_lastSeen_ne ms _ _ _ _ (makeKey_ne_connections _ _ _)
  have hhr : ∀ (ms : MetricsState) (kv : (String × String) × Nat),
      alGet 0 (Metrics.SetHTTPResponse ms kv.1.1 kv.1.2 kv.2).lastSeen "connections"
        = alGet 0 ms.lastSeen "connections" :=
    fun ms kv => Metrics.applyDelta_lastSeen_ne ms _ _ _ _ (makeKey_ne_connections _ _ _)
  simp only [setGlobalStats]
  rw [foldl_lastSeen_ne stats.HTTPResponses _ _ hhr]
  rw [foldl_lastSeen_ne stats.CacheStatuses _ _ hcs]
  rw [foldl_lastSeen_ne stats.RequestDurations _ _ hrd]
  exact Metrics.applyDelta_lastSeen_self _ _ _ _

theorem updateMetrics_lastSeen_conn (cfg : Config) (stats : Stats) (ps : ParserState)
    (ms : MetricsState) :
    alGet 0 (updateMetrics cfg stats ps ms).2.lastSeen "connections"
      = (stats.Connections : ℚ) := by
  simp only [updateMetrics]
  split
  · rw [Metrics.UpdateAllDomains_lastSeen_conn, foldl_domainStep_lastSeen_conn]
    exact setGlobalStats_lastSeen_conn stats ms
  · rw [foldl_domainStep_lastSeen_conn]
    exact setGlobalStats_lastSeen_conn stats ms

theorem dropBytes_eq_nil : ∀ (ls : List String) (off : Nat),
    (ls.map (fun l => l.length + 1)).sum ≤ off → dropBytes ls off = [] := by
  intro ls
  induction ls with
  | nil =>
    intro off _
    cases off <;> rfl
  | cons l t ih =>
    intro off h
    simp only [List.map_cons, List.sum_cons] at h
    obtain ⟨off', rfl⟩ : ∃ off', off = off' + 1 := ⟨off - 1, by omega⟩
    rw [show dropBytes (l :: t) (off' + 1)
        = if l.length + 1 ≤ off' + 1 then dropBytes t (off' + 1 - (l.length + 1))
          else (l.drop (off' + 1)) :: t from rfl]
    rw [if_pos (by omega)]
    exact ih _ (by omega)

theorem updateMetrics_emptyStats_counters (cfg : Config) (ps : ParserState) (ms : MetricsState)
    (hconn : 0 ≤ alGet 0 ms.lastSeen "connections") :
    (updateMetrics cfg emptyStats ps ms).2.counters = ms.counters := by
  have hset : setGlobalStats emptyStats ms = Metrics.SetConnections ms 0 := rfl
  have hsc : (Metrics.SetConnections ms 0).counters = ms.counters := by
    simp only [Metrics.SetConnections, Metrics.applyDelta_counters]
    rw [if_neg (by push_cast; linarith)]
  simp only [updateMetrics, hset, emptyStats, List.foldl_nil]
  rw [if_neg (by simp [emptyOtherAcc])]
  exact hsc

/-- C4: running the aggregator twice in succession on an unmodified log file
(same inode, no new bytes) leaves every exported counter at the value it had
after the first run: the second run scans nothing and its zero per-run
statistics produce no positive delta. -/
theorem C4_reread_idempotent (cfg : Config) (f : SquidFile) (stored : Position)
    (ps : ParserState) (ms : MetricsState) :
    (runParse cfg f (runParse cfg f stored ps ms).1 (runParse cfg f stored ps ms).2.1
        (runParse cfg f stored ps ms).2.2).2.2.counters
      = (runParse cfg f stored ps ms).2.2.counters := by
  have hpos1 : (runParse cfg f stored ps ms).1
      = ⟨max (effectiveStart stored f.inode) (byteSize f), f.inode⟩ := rfl
  have hstart2 : effectiveStart (runParse cfg f stored ps ms).1 f.inode
      = max (effectiveStart stored f.inode) (byteSize f) := by
    rw [hpos1]
    simp [effectiveStart]
  have hscan2 : dropBytes f.lines (effectiveStart (runParse cfg f stored ps ms).1 f.inode) = [] := by
    rw [hstart2]
    exact dropBytes_eq_nil _ _ (le_max_right _ _)
  have hconn : alGet 0 (runParse cfg f stored ps ms).2.2.lastSeen "connections"
      = ((runStats cfg (dropBytes f.lines (effectiveStart stored f.inode))).Connections : ℚ) := by
    simp only [runParse]
    exact updateMetrics_lastSeen_conn _ _ _ _
  show (updateMetrics cfg
      (runStats cfg (dropBytes f.lines (effectiveStart (runParse cfg f stored ps ms).1 f.inode)))
      (runParse cfg f stored ps ms).2.1 (runParse cfg f stored ps ms).2.2).2.counters = _
  rw [hscan2]
  show (updateMetrics cfg emptyStats _ _).2.counters = _
  exact updateMetrics_emptyStats_counters cfg _ _ (by rw [hconn]; positivity)

/-! ## Rotation and truncation handling (C5, C6) -/

theorem dropBytes_zero (ls : List String) : dropBytes ls 0 = ls := by
  cases ls <;> rfl

/-- C5: with a stored nonzero inode A and a current file whose inode B differs,
the next aggregation run discards the stored offset and scans from byte 0:
the effective start is 0, so every line of the current file is scanned; the
v1 `parseNewEntries` position-reset logic likewise yields offset 0. -/
theorem C5_rotation_scans_from_zero (f : SquidFile) (stored : Position)
    (hA : stored.inode ≠ 0) (hB : f.inode ≠ stored.inode) :
    effectiveStart stored f.inode = 0
    ∧ dropBytes f.lines (effectiveStart stored f.inode) = f.lines
    ∧ (∀ lastPosition fileSize : Int,
        resetPosition lastPosition stored.inode f.inode fileSize = 0) := by
  have hstart : effectiveStart stored f.inode = 0 := by
    simp [effectiveStart, hA, hB]
  refine ⟨hstart, ?_, ?_⟩
  · rw [hstart]
    exact dropBytes_zero f.lines
  · intro lastPosition fileSize
    have : stored.inode ≠ f.inode := fun hh => hB hh.symm
    simp [resetPosition, this]

/-- Witness for C5: stored position (offset 500, inode 1), current inode 2. -/
theorem C5_rotation_scans_from_zero_witness :
    effectiveStart ⟨500, 1⟩ 2 = 0
    ∧ dropBytes ["line one", "line two"] (effectiveStart ⟨500, 1⟩ 2) = ["line one", "line two"]
    ∧ (∀ lastPosition fileSize : Int, resetPosition lastPosition 1 2 fileSize = 0) :=
  C5_rotation_scans_from_zero ⟨2, ["line one", "line two"]⟩ ⟨500, 1⟩
    (by decide) (by decide)

/-- Counterexample to C6 as stated: for the internal parser (`Parser.Parse`),
with the same inode 7 and a stored offset 10 beyond the 6-byte file
["ab", "cd"], the run does not reset the offset to zero: the effective start
stays 10, nothing is scanned (not the whole file), and the saved position
remains 10. -/
theorem C6_counterexample :
    effectiveStart ⟨10, 7⟩ 7 = 10
    ∧ dropBytes ["ab", "cd"] (effectiveStart ⟨10, 7⟩ 7) = []
    ∧ dropBytes ["ab", "cd"] (effectiveStart ⟨10, 7⟩ 7) ≠ ["ab", "cd"]
    ∧ (runParse ⟨false, 0, ⟨[], "ms"⟩, [], []⟩ ⟨7, ["ab", "cd"]⟩ ⟨10, 7⟩ ⟨[]⟩
        ⟨[], [], [], []⟩).1.pos = 10 :=
  ⟨rfl, rfl, by decide, rfl⟩

/-- C6 amended: the truncation reset exists only in the v1 path.  In
`MetricsCollector.parseNewEntries` (`squid_log_exporter.go`), a stored offset
exceeding the file size with an unchanged inode is reset to zero, so the scan
starts from the beginning; the internal `Parser.Parse` performs no such
check: it seeks to the stored offset, scans nothing, and saves the offset
unchanged. -/
theorem C6_truncation_reset (f : SquidFile) (stored : Position) (h : stored.inode = f.inode)
    (hgt : byteSize f < stored.pos) (i : Nat) (lastPosition fileSize : Int)
    (hsz : fileSize < lastPosition) :
    resetPosition lastPosition i i fileSize = 0
    ∧ dropBytes f.lines (effectiveStart stored f.inode) = []
    ∧ (∀ (cfg : Config) (ps : ParserState) (ms : MetricsState),
        (runParse cfg f stored ps ms).1.pos = stored.pos) := by
  have hstart : effectiveStart stored f.inode = stored.pos := by
    simp [effectiveStart, h]
  refine ⟨?_, ?_, ?_⟩
  · simp [resetPosition, hsz]
  · rw [hstart]
    exact dropBytes_eq_nil _ _ (le_of_lt hgt)
  · intro cfg ps ms
    show max (effectiveStart stored f.inode) (byteSize f) = stored.pos
    rw [hstart]
    exact max_eq_left (le_of_lt hgt)

/-- Witness for the amended C6: file ["ab", "cd"] (6 bytes), stored offset 10,
inode 7 on both sides; v1 resets 10 > 6 to 0, the internal parser keeps 10. -/
theorem C6_truncation_reset_witness :
    resetPosition 10 7 7 6 = 0
    ∧ dropBytes ["ab", "cd"] (effectiveStart ⟨10, 7⟩ 7) = []
    ∧ (∀ (cfg : Config) (ps : ParserState) (ms : MetricsState),
        (runParse cfg ⟨7, ["ab", "cd"]⟩ ⟨10, 7⟩ ps ms).1.pos = 10) :=
  C6_truncation_reset ⟨7, ["ab", "cd"]⟩ ⟨10, 7⟩ rfl (by decide) 7 10 6 (by decide)

/-! ## Percentile calculator (C7) -/

theorem isEmpty_false_of_ne_nil {α : Type} {l : List α} (h : l ≠ []) : l.isEmpty = false := by
  cases l with
  | nil => exact absurd rfl h
  | cons a t => rfl

theorem insertionSort_eq_of_perm {l l' : List ℚ} (h : List.Perm l l') :
    l.insertionSort (· ≤ ·) = l'.insertionSort (· ≤ ·) :=
  List.eq_of_perm_of_sorted
    ((List.perm_insertionSort _ l).trans (h.trans (List.perm_insertionSort _ l').symm))
    (List.sorted_insertionSort _ l) (List.sorted_insertionSort _ l')

/-- C7: for the four percentile constants the program uses, the percentile
calculator returns 0 on an empty sample list, `percentile([5], 0.99) = 5`,
the result is invariant under reordering of the samples, and on a nonempty
list it is the element at index `⌊n·p⌋` (clamped to `n-1`) of the
ascending-sorted copy. -/
theorem C7_percentile (l l' : List ℚ) (p : ℚ)
    (hp : p = 0.50 ∨ p = 0.90 ∨ p = 0.95 ∨ p = 0.99) (hperm : List.Perm l l') :
    calculatePercentile [] p = 0
    ∧ calculatePercentile [5] 0.99 = 5
    ∧ calculatePercentile l p = calculatePercentile l' p
    ∧ (l ≠ [] →
        calculatePercentile l p =
          (l.insertionSort (· ≤ ·)).getD
            (min (⌊(l.length : ℚ) * p⌋).toNat (l.length - 1)) 0) := by
  have hgen : ∀ (m : List ℚ) (q : ℚ), m ≠ [] →
      calculatePercentile m q =
        (m.insertionSort (· ≤ ·)).getD
          (min (⌊(m.length : ℚ) * q⌋).toNat (m.length - 1)) 0 := by
    intro m q hne
    have hlen : (m.insertionSort (· ≤ ·)).length = m.length :=
      (List.perm_insertionSort _ m).length_eq
    simp only [calculatePercentile, isEmpty_false_of_ne_nil hne, Bool.false_eq_true,
      if_false, hlen]
    congr 1
    split <;> omega
  refine ⟨rfl, ?_, ?_, fun hne => hgen l p hne⟩
  · have hmin : min (⌊(([5] : List ℚ).length : ℚ) * 0.99⌋).toNat (([5] : List ℚ).length - 1)
        = 0 := by simp
    rw [hgen [5] 0.99 (by simp), hmin]
    rfl
  · by_cases hl : l = []
    · have hl' : l' = [] := List.Perm.eq_nil (hl ▸ hperm).symm
      rw [hl, hl']
    · have hl' : l' ≠ [] := fun h => hl (List.Perm.eq_nil (h ▸ hperm))
      rw [hgen l p hl, hgen l' p hl', insertionSort_eq_of_perm hperm, hperm.length_eq]

/-! ## Line-level error handling (C8) -/

theorem updateDomainStats_zero_bytes (stats : Stats) (h p httpCode cat : String)
    (dur : ℚ) (cs : String) (key : String × String) :
    (alGet emptyDomainData (updateDomainStats stats h p 0 httpCode cat dur cs).DomainData
        key).BytesOut
      = (alGet emptyDomainData stats.DomainData key).BytesOut := by
  simp only [updateDomainStats]
  by_cases hk : (h, p) = key
  · subst hk
    rw [alGet_alSet_self]
    simp
  · rw [alGet_alSet_ne _ _ _ _ _ hk]

/-- C8: a line with fewer tokens than the highest configured field index
requires is a parse error; a result-code field that does not split on "/"
into exactly two parts is a parse error; with enough tokens and a two-part
result code the line always succeeds; an unparsable duration degrades to
duration 0 (the line lands in the duration bucket of 0); and an unparsable
bytes field degrades to byte count 0 (no domain's byte total changes). -/
theorem parseLine_total (cfg : Config) (line : String) (stats : Stats)
    (h1 : cfg.logFormat.maxFieldIdx < (splitPreservingQuotes line).length)
    (h2 : (splitChar '/' (cfg.logFormat.GetField (splitPreservingQuotes line)
      "result_code")).length = 2) :
    ∃ s', parseLine cfg line stats = .ok s' := by
  simp only [parseLine]
  rw [if_neg (by omega), if_neg (by omega)]
  split
  · exact ⟨_, rfl⟩
  · split
    · exact ⟨_, rfl⟩
    · split
      · exact ⟨_, rfl⟩
      · exact ⟨_, rfl⟩

theorem parseLine_duration_none (cfg : Config) (line : String) (stats s' : Stats)
    (hf : parseFloat? (cfg.logFormat.GetField (splitPreservingQuotes line) "duration") = none)
    (hok : parseLine cfg line stats = .ok s') :
    s'.RequestDurations = alBump stats.RequestDurations (getDurationBucket 0) := by
  have hzero : (if cfg.logFormat.durationUnit = "ms"
      then ((parseFloat? (cfg.logFormat.GetField (splitPreservingQuotes line)
        "duration")).getD 0) / 1000
      else (parseFloat? (cfg.logFormat.GetField (splitPreservingQuotes line)
        "duration")).getD 0) = 0 := by
    rw [hf]
    split <;> simp
  simp only [parseLine] at hok
  rw [hzero] at hok
  split at hok
  · cases hok
  · split at hok
    · cases hok
    · split at hok
      · cases hok with
        | refl => rfl
      · split at hok
        · cases hok with
          | refl => rfl
        · split at hok
          · cases hok with
            | refl => rfl
          · cases hok with
            | refl => rfl

theorem parseLine_bytes_none (cfg : Config) (line : String) (stats s' : Stats)
    (hb : parseInt? (cfg.logFormat.GetField (splitPreservingQuotes line) "bytes") = none)
    (hok : parseLine cfg line stats = .ok s') :
    ∀ key, (alGet emptyDomainData s'.DomainData key).BytesOut
      = (alGet emptyDomainData stats.DomainData key).BytesOut := by
  simp only [parseLine] at hok
  rw [hb] at hok
  split at hok
  · cases hok
  · split at hok
    · cases hok
    · split at hok
      · cases hok with
        | refl => intro key; rfl
      · split at hok
        · cases hok with
          | refl => intro key; rfl
        · split at hok
          · cases hok with
            | refl => intro key; rfl
          · cases hok with
            | refl =>
              intro key
              exact updateDomainStats_zero_bytes _ _ _ _ _ _ _ key

/-- C8: a line with fewer tokens than the highest configured field index
requires is a parse error; a result-code field that does not split on "/"
into exactly two parts is a parse error; with enough tokens and a two-part
result code the line always succeeds (no other condition fails a line); and
on such a line an unparsable duration degrades to duration 0 (the line lands
in the duration bucket of 0) and an unparsable bytes field degrades to byte
count 0 (no domain byte total changes), without failing the line. -/
theorem C8_parseLine_errors (cfg : Config) (line : String) (stats : Stats) :
    ((splitPreservingQuotes line).length ≤ cfg.logFormat.maxFieldIdx →
      ∃ msg, parseLine cfg line stats = .error msg)
    ∧ (cfg.logFormat.maxFieldIdx < (splitPreservingQuotes line).length →
        (splitChar '/' (cfg.logFormat.GetField (splitPreservingQuotes line)
          "result_code")).length ≠ 2 →
        ∃ msg, parseLine cfg line stats = .error msg)
    ∧ (cfg.logFormat.maxFieldIdx < (splitPreservingQuotes line).length →
        (splitChar '/' (cfg.logFormat.GetField (splitPreservingQuotes line)
          "result_code")).length = 2 →
        ∃ s', parseLine cfg line stats = .ok s')
    ∧ (cfg.logFormat.maxFieldIdx < (splitPreservingQuotes line).length →
        (splitChar '/' (cfg.logFormat.GetField (splitPreservingQuotes line)
          "result_code")).length = 2 →
        parseFloat? (cfg.logFormat.GetField (splitPreservingQuotes line) "duration") = none →
        ∃ s', parseLine cfg line stats = .ok s'
          ∧ s'.RequestDurations = alBump stats.RequestDurations (getDurationBucket 0))
    ∧ (cfg.logFormat.maxFieldIdx < (splitPreservingQuotes line).length →
        (splitChar '/' (cfg.logFormat.GetField (splitPreservingQuotes line)
          "result_code")).length = 2 →
        parseInt? (cfg.logFormat.GetField (splitPreservingQuotes line) "bytes") = none →
        ∃ s', parseLine cfg line stats = .ok s'
          ∧ ∀ key, (alGet emptyDomainData s'.DomainData key).BytesOut
              = (alGet emptyDomainData stats.DomainData key).BytesOut) := by
  refine ⟨?_, ?_, ?_, ?_, ?_⟩
  · intro h
    exact ⟨_, by simp only [parseLine]; rw [if_pos h]⟩
  · intro h1 h2
    exact ⟨_, by simp only [parseLine]; rw [if_neg (by omega), if_pos h2]⟩
  · intro h1 h2
    exact parseLine_total cfg line stats h1 h2
  · intro h1 h2 hf
    obtain ⟨s', hok⟩ := parseLine_total cfg line stats h1 h2
    exact ⟨s', hok, parseLine_duration_none cfg line stats s' hf hok⟩
  · intro h1 h2 hb
    obtain ⟨s', hok⟩ := parseLine_total cfg line stats h1 h2
    exact ⟨s', hok, parseLine_bytes_none cfg line stats s' hb hok⟩

/-! ## Host/port classification (C9) -/

theorem listIsPrefix_append : ∀ a b : List Char, listIsPrefix a (a ++ b) = true := by
  intro a b
  induction a with
  | nil => rfl
  | cons x xs ih => simp [listIsPrefix, ih]

theorem strStartsWith_append (pre t : String) : strStartsWith (pre ++ t) pre = true := by
  unfold strStartsWith
  rw [String.data_append]
  exact listIsPrefix_append pre.data t.data

theorem strDrop_http (t : String) : strDrop ("http://" ++ t) 7 = t := by
  unfold strDrop
  rw [String.data_append]
  rw [show (7 : Nat) = ("http://" : String).data.length from rfl, List.drop_left]

theorem strDrop_https (t : String) : strDrop ("https://" ++ t) 8 = t := by
  unfold strDrop
  rw [String.data_append]
  rw [show (8 : Nat) = ("https://" : String).data.length from rfl, List.drop_left]

theorem https_not_http (t : String) : strStartsWith ("https://" ++ t) "http://" = false := by
  unfold strStartsWith
  rw [String.data_append]
  rfl

theorem takeWhile_append_all {α : Type} (p : α → Bool) :
    ∀ (l₁ l₂ : List α), (∀ c ∈ l₁, p c = true) →
      List.takeWhile p (l₁ ++ l₂) = l₁ ++ List.takeWhile p l₂ := by
  intro l₁ l₂ h
  induction l₁ with
  | nil => rfl
  | cons x xs ih =>
    have hx : p x = true := h x (by simp)
    simp only [List.cons_append, List.takeWhile_cons, hx, if_true]
    rw [ih (fun c hc => h c (by simp [hc]))]

theorem contains_eq_false {α : Type} [BEq α] [LawfulBEq α] {a : α} :
    ∀ {l : List α}, a ∉ l → l.contains a = false := by
  intro l h
  induction l with
  | nil => rfl
  | cons x xs ih =>
    have hne : a ≠ x := fun hxa => h (by rw [hxa]; exact List.mem_cons_self x xs)
    have hx : (a == x) = false := beq_eq_false_iff_ne.mpr hne
    have hx' : (x == a) = false := beq_eq_false_iff_ne.mpr (fun hh => hne hh.symm)
    have hm : a ∉ xs := fun hh => h (List.mem_cons_of_mem _ hh)
    simp [List.contains_cons, hx, hx', ih hm]
    exact hm

theorem contains_eq_true {α : Type} [BEq α] [LawfulBEq α] {a : α} {l : List α}
    (h : a ∈ l) : l.contains a = true := by
  induction l with
  | nil => cases h
  | cons x xs ih =>
    rcases List.mem_cons.mp h with rfl | hm
    · simp [List.contains_cons]
    · simp only [List.contains_cons, ih hm, Bool.or_true]

theorem clean_pred {c : Char} (h : cleanHostChar c) :
    (c != '/' && c != '?' && c != '#') = true := by
  obtain ⟨-, h1, h2, h3, -⟩ := h
  simp [h1, h2, h3]

theorem digit_clean {c : Char} (h : c.isDigit = true) : cleanHostChar c := by
  refine ⟨?_, ?_, ?_, ?_, ?_⟩ <;> (intro he; rw [he] at h; exact absurd h (by decide))

theorem bne_true_of_ne {c d : Char} (h : c ≠ d) : (c != d) = true := by
  simp [bne_iff_ne, h]

theorem parseAuthority_clean_noport (scheme h : String) (t : List Char)
    (hh : ∀ c ∈ h.data, cleanHostChar c)
    (htail : List.takeWhile (fun c => c != '/' && c != '?' && c != '#') t = []) :
    parseAuthority scheme (h ++ String.mk t) = some ⟨scheme, h, ""⟩ := by
  have hdata : (h ++ String.mk t).data = h.data ++ t := String.data_append h (String.mk t)
  have hauth : List.takeWhile (fun c => c != '/' && c != '?' && c != '#') (h.data ++ t)
      = h.data := by
    rw [takeWhile_append_all _ _ _ (fun c hc => clean_pred (hh c hc)), htail, List.append_nil]
  have hat : ('@' : Char) ∉ h.data := fun hm => (hh _ hm).2.2.2.2 rfl
  have hcolon : (':' : Char) ∉ h.data := fun hm => (hh _ hm).1 rfl
  simp only [parseAuthority, hdata, hauth, contains_eq_false hat, contains_eq_false hcolon,
    Bool.false_eq_true, if_false]

theorem parseAuthority_clean_port (scheme h pt : String) (t : List Char)
    (hh : ∀ c ∈ h.data, cleanHostChar c)
    (hpt : ∀ c ∈ pt.data, c.isDigit = true)
    (htail : List.takeWhile (fun c => c != '/' && c != '?' && c != '#') t = []) :
    parseAuthority scheme (h ++ ":" ++ pt ++ String.mk t) = some ⟨scheme, h, pt⟩ := by
  have hptclean : ∀ c ∈ pt.data, cleanHostChar c := fun c hc => digit_clean (hpt c hc)
  have hdata : (h ++ ":" ++ pt ++ String.mk t).data = h.data ++ ':' :: (pt.data ++ t) := by
    rw [String.data_append, String.data_append, String.data_append]
    simp [List.append_assoc]
  have hauth : List.takeWhile (fun c => c != '/' && c != '?' && c != '#')
      (h.data ++ ':' :: (pt.data ++ t)) = h.data ++ ':' :: pt.data := by
    rw [takeWhile_append_all _ _ _ (fun c hc => clean_pred (hh c hc))]
    congr 1
    rw [List.takeWhile_cons, if_pos (by decide)]
    congr 1
    rw [takeWhile_append_all _ _ _ (fun c hc => clean_pred (hptclean c hc)), htail,
      List.append_nil]
  have hat : ('@' : Char) ∉ h.data ++ ':' :: pt.data := by
    intro hm
    rcases List.mem_append.mp hm with h1 | h2
    · exact (hh _ h1).2.2.2.2 rfl
    · rcases List.mem_cons.mp h2 with he | h3
      · exact absurd he (by decide)
      · exact (hptclean _ h3).2.2.2.2 rfl
  have hcolon : (':' : Char) ∈ h.data ++ ':' :: pt.data :=
    List.mem_append.mpr (Or.inr (List.mem_cons_self _ _))
  have hrev : (h.data ++ ':' :: pt.data).reverse = pt.data.reverse ++ ':' :: h.data.reverse := by
    rw [List.reverse_append, List.reverse_cons]
    simp [List.append_assoc]
  have hport : List.takeWhile (· != ':') (pt.data.reverse ++ ':' :: h.data.reverse)
      = pt.data.reverse := by
    rw [takeWhile_append_all _ _ _
      (fun c hc => bne_true_of_ne (hptclean c (List.mem_reverse.mp hc)).1)]
    rw [List.takeWhile_cons, if_neg (by decide), List.append_nil]
  have hlen : (h.data ++ ':' :: pt.data).length - (pt.data.length + 1) = h.data.length := by
    simp [List.length_append]
  have htake : (h.data ++ ':' :: pt.data).take h.data.length = h.data := List.take_left h.data _
  have halldig : pt.data.all Char.isDigit = true := List.all_eq_true.mpr hpt
  simp only [parseAuthority, hdata, hauth, contains_eq_true hcolon, contains_eq_false hat,
    Bool.false_eq_true, if_false, if_true, hrev, hport, List.reverse_reverse,
    List.length_reverse, hlen, htake, halldig]

theorem splitCharAux_no (c : Char) : ∀ (cs acc : List Char), c ∉ cs →
    splitCharAux c cs acc = [String.mk (acc.reverse ++ cs)] := by
  intro cs
  induction cs with
  | nil =>
    intro acc _
    simp [splitCharAux]
  | cons x xs ih =>
    intro acc h
    have hx : x ≠ c := fun he => h (he ▸ List.mem_cons_self x xs)
    simp only [splitCharAux, if_neg hx]
    rw [ih (x :: acc) (fun hm => h (List.mem_cons_of_mem _ hm))]
    simp

theorem splitCharAux_split (c : Char) : ∀ (cs₁ acc cs₂ : List Char), c ∉ cs₁ →
    splitCharAux c (cs₁ ++ c :: cs₂) acc
      = String.mk (acc.reverse ++ cs₁) :: splitCharAux c cs₂ [] := by
  intro cs₁
  induction cs₁ with
  | nil =>
    intro acc cs₂ _
    simp [splitCharAux]
  | cons x xs ih =>
    intro acc cs₂ h
    have hx : x ≠ c := fun he => h (he ▸ List.mem_cons_self x xs)
    simp only [List.cons_append, splitCharAux, if_neg hx]
    show splitCharAux c (xs ++ c :: cs₂) (x :: acc) = _
    rw [ih (x :: acc) cs₂ (fun hm => h (List.mem_cons_of_mem _ hm))]
    simp

theorem splitChar_no (c : Char) (s : String) (h : c ∉ s.data) : splitChar c s = [s] := by
  unfold splitChar
  rw [show s.toList = s.data from rfl, splitCharAux_no c s.data [] h]
  rfl

theorem splitChar_hp (h p : String) (hh : (':' : Char) ∉ h.data)
    (hp : (':' : Char) ∉ p.data) : splitChar ':' (h ++ ":" ++ p) = [h, p] := by
  unfold splitChar
  have hd : (h ++ ":" ++ p).toList = h.data ++ ':' :: p.data := by
    show (h ++ ":" ++ p).data = _
    rw [String.data_append, String.data_append]
    simp [List.append_assoc]
  rw [hd, splitCharAux_split ':' h.data [] p.data hh, splitCharAux_no ':' p.data [] hp]
  simp

theorem parseLine_ok_domain (cfg : Config) (line : String) (stats s' : Stats)
    (hok : parseLine cfg line stats = .ok s') :
    s'.DomainData = stats.DomainData
    ∨ ∃ hp : String × String,
        classifyHostPort (cfg.logFormat.GetField (splitPreservingQuotes line) "method")
          (cfg.logFormat.GetField (splitPreservingQuotes line) "url") = some hp
        ∧ ¬(hp.1 = "" ∨ hp.1 = "-" ∨ hp.1 = "localhost")
        ∧ isInternalURL (cfg.logFormat.GetField (splitPreservingQuotes line) "url") = false := by
  simp only [parseLine] at hok
  by_cases h1 : (splitPreservingQuotes line).length ≤ cfg.logFormat.maxFieldIdx
  · rw [if_pos h1] at hok
    cases hok
  rw [if_neg h1] at hok
  by_cases h2 : (splitChar '/' (cfg.logFormat.GetField (splitPreservingQuotes line)
      "result_code")).length ≠ 2
  · rw [if_pos h2] at hok
    cases hok
  rw [if_neg h2] at hok
  by_cases h3 : isInternalURL (cfg.logFormat.GetField (splitPreservingQuotes line) "url") = true
  · rw [if_pos h3] at hok
    cases hok
    exact Or.inl rfl
  rw [if_neg h3] at hok
  rcases hcl : classifyHostPort (cfg.logFormat.GetField (splitPreservingQuotes line) "method")
      (cfg.logFormat.GetField (splitPreservingQuotes line) "url") with _ | hpv
  · simp only [hcl] at hok
    cases hok
    exact Or.inl rfl
  · simp only [hcl] at hok
    by_cases h4 : hpv.1 = "" ∨ hpv.1 = "-" ∨ hpv.1 = "localhost"
    · rw [if_pos h4] at hok
      cases hok
      exact Or.inl rfl
    · rw [if_neg h4] at hok
      cases hok
      exact Or.inr ⟨hpv, rfl, h4, by simpa using h3⟩

/-- C9: host/port classification.  CONNECT targets are taken as `host[:port]`
with missing port defaulting to 443; absolute http/https URLs take host and
port from the parsed URL with missing port defaulting to 80 (http) or 443
(https); other `host:port`-shaped values default the missing port to 80;
URLs with the internal scheme prefixes produce no domain observation, and so
do entries whose derived host is empty, "-", or "localhost". -/
theorem C9_host_port_classification :
    (∀ u : String, (':' : Char) ∉ u.data →
      classifyHostPort "CONNECT" u = some (u, "443"))
    ∧ (∀ h p : String, (':' : Char) ∉ h.data → (':' : Char) ∉ p.data →
        classifyHostPort "CONNECT" (h ++ ":" ++ p) = some (h, p))
    ∧ (∀ (m h : String) (t : List Char), m ≠ "CONNECT" →
        (∀ c ∈ h.data, cleanHostChar c) →
        List.takeWhile (fun c => c != '/' && c != '?' && c != '#') t = [] →
        classifyHostPort m ("http://" ++ (h ++ String.mk t)) = some (h, "80"))
    ∧ (∀ (m h : String) (t : List Char), m ≠ "CONNECT" →
        (∀ c ∈ h.data, cleanHostChar c) →
        List.takeWhile (fun c => c != '/' && c != '?' && c != '#') t = [] →
        classifyHostPort m ("https://" ++ (h ++ String.mk t)) = some (h, "443"))
    ∧ (∀ (m h pt : String) (t : List Char), m ≠ "CONNECT" →
        (∀ c ∈ h.data, cleanHostChar c) →
        (∀ c ∈ pt.data, c.isDigit = true) → pt ≠ "" →
        List.takeWhile (fun c => c != '/' && c != '?' && c != '#') t = [] →
        classifyHostPort m ("http://" ++ (h ++ ":" ++ pt ++ String.mk t)) = some (h, pt))
    ∧ (∀ m u : String, m ≠ "CONNECT" →
        strStartsWith u "http://" = false → strStartsWith u "https://" = false →
        (':' : Char) ∉ u.data → classifyHostPort m u = some (u, "80"))
    ∧ (∀ m h p : String, m ≠ "CONNECT" →
        strStartsWith (h ++ ":" ++ p) "http://" = false →
        strStartsWith (h ++ ":" ++ p) "https://" = false →
        (':' : Char) ∉ h.data → (':' : Char) ∉ p.data →
        classifyHostPort m (h ++ ":" ++ p) = some (h, p))
    ∧ (∀ (cfg : Config) (line : String) (stats : Stats),
        cfg.logFormat.maxFieldIdx < (splitPreservingQuotes line).length →
        (splitChar '/' (cfg.logFormat.GetField (splitPreservingQuotes line)
          "result_code")).length = 2 →
        isInternalURL (cfg.logFormat.GetField (splitPreservingQuotes line) "url") = true →
        ∃ s', parseLine cfg line stats = .ok s' ∧ s'.DomainData = stats.DomainData)
    ∧ (∀ (cfg : Config) (line : String) (stats : Stats) (hp : String × String),
        cfg.logFormat.maxFieldIdx < (splitPreservingQuotes line).length →
        (splitChar '/' (cfg.logFormat.GetField (splitPreservingQuotes line)
          "result_code")).length = 2 →
        classifyHostPort (cfg.logFormat.GetField (splitPreservingQuotes line) "method")
          (cfg.logFormat.GetField (splitPreservingQuotes line) "url") = some hp →
        (hp.1 = "" ∨ hp.1 = "-" ∨ hp.1 = "localhost") →
        ∃ s', parseLine cfg line stats = .ok s' ∧ s'.DomainData = stats.DomainData) := by
  refine ⟨?_, ?_, ?_, ?_, ?_, ?_, ?_, ?_, ?_⟩
  · intro u hu
    simp [classifyHostPort, splitChar_no ':' u hu]
  · intro h p hh hp
    simp [classifyHostPort, splitChar_hp h p hh hp]
  · intro m h t hm hclean htail
    have h1 : strStartsWith ("http://" ++ (h ++ String.mk t)) "http://" = true :=
      strStartsWith_append _ _
    have h2 : urlParse? ("http://" ++ (h ++ String.mk t)) = some ⟨"http", h, ""⟩ := by
      unfold urlParse?
      rw [h1, if_pos rfl, strDrop_http]
      exact parseAuthority_clean_noport "http" h t hclean htail
    simp [classifyHostPort, hm, h1, h2]
  · intro m h t hm hclean htail
    have h0 : strStartsWith ("https://" ++ (h ++ String.mk t)) "http://" = false :=
      https_not_http _
    have h1 : strStartsWith ("https://" ++ (h ++ String.mk t)) "https://" = true :=
      strStartsWith_append _ _
    have h2 : urlParse? ("https://" ++ (h ++ String.mk t)) = some ⟨"https", h, ""⟩ := by
      unfold urlParse?
      rw [h0, strDrop_https]
      simp only [Bool.false_eq_true, if_false]
      exact parseAuthority_clean_noport "https" h t hclean htail
    simp [classifyHostPort, hm, h0, h1, h2]
  · intro m h pt t hm hclean hdig hne htail
    have h1 : strStartsWith ("http://" ++ (h ++ ":" ++ pt ++ String.mk t)) "http://" = true :=
      strStartsWith_append _ _
    have h2 : urlParse? ("http://" ++ (h ++ ":" ++ pt ++ String.mk t))
        = some ⟨"http", h, pt⟩ := by
      unfold urlParse?
      rw [h1, if_pos rfl, strDrop_http]
      exact parseAuthority_clean_port "http" h pt t hclean hdig htail
    simp [classifyHostPort, hm, h1, h2, hne]
  · intro m u hm hhttp hhttps hu
    simp [classifyHostPort, hm, hhttp, hhttps, splitChar_no ':' u hu]
  · intro m h p hm hhttp hhttps hh hp
    simp [classifyHostPort, hm, hhttp, hhttps, splitChar_hp h p hh hp]
  · intro cfg line stats h1 h2 hint
    obtain ⟨s', hok⟩ := parseLine_total cfg line stats h1 h2
    refine ⟨s', hok, ?_⟩
    rcases parseLine_ok_domain cfg line stats s' hok with hd | ⟨_, _, _, hfalse⟩
    · exact hd
    · rw [hint] at hfalse
      cases hfalse
  · intro cfg line stats hp h1 h2 hcl hbad
    obtain ⟨s', hok⟩ := parseLine_total cfg line stats h1 h2
    refine ⟨s', hok, ?_⟩
    rcases parseLine_ok_domain cfg line stats s' hok with hd | ⟨hp', heq', hnb, _⟩
    · exact hd
    · rw [hcl] at heq'
      cases heq'
      exact absurd hbad hnb

/-- Witness for C8 on concrete lines: a two-token line fails, a line whose
result code has no "/" fails, and a full line with unparsable duration "x"
and unparsable bytes "y" succeeds, landing in the zero duration bucket and
changing no byte totals. -/
theorem C8_parseLine_errors_witness :
    (∃ msg, parseLine exampleConfig "a b" emptyStats = .error msg)
    ∧ (∃ msg, parseLine exampleConfig "t 1 TCPMISS 5 GET http://e/" emptyStats = .error msg)
    ∧ (∃ s', parseLine exampleConfig "t x TCP_MISS/200 y GET http://e/" emptyStats = .ok s')
    ∧ (∃ s', parseLine exampleConfig "t x TCP_MISS/200 y GET http://e/" emptyStats = .ok s'
        ∧ s'.RequestDurations = alBump emptyStats.RequestDurations (getDurationBucket 0))
    ∧ (∃ s', parseLine exampleConfig "t x TCP_MISS/200 y GET http://e/" emptyStats = .ok s'
        ∧ ∀ key, (alGet emptyDomainData s'.DomainData key).BytesOut
            = (alGet emptyDomainData emptyStats.DomainData key).BytesOut) :=
  ⟨(C8_parseLine_errors exampleConfig "a b" emptyStats).1 (by decide),
   (C8_parseLine_errors exampleConfig "t 1 TCPMISS 5 GET http://e/" emptyStats).2.1
     (by decide) (by decide),
   (C8_parseLine_errors exampleConfig "t x TCP_MISS/200 y GET http://e/" emptyStats).2.2.1
     (by decide) (by decide),
   (C8_parseLine_errors exampleConfig "t x TCP_MISS/200 y GET http://e/" emptyStats).2.2.2.1
     (by decide) (by decide) (by decide),
   (C8_parseLine_errors exampleConfig "t x TCP_MISS/200 y GET http://e/" emptyStats).2.2.2.2
     (by decide) (by decide) (by decide)⟩

/-- Witness for C9 on concrete inputs covering every clause. -/
theorem C9_host_port_classification_witness :
    classifyHostPort "CONNECT" "example.com" = some ("example.com", "443")
    ∧ classifyHostPort "CONNECT" ("example.com" ++ ":" ++ "8443") = some ("example.com", "8443")
    ∧ classifyHostPort "GET" ("http://" ++ ("example.com" ++ String.mk ['/', 'x']))
        = some ("example.com", "80")
    ∧ classifyHostPort "GET" ("https://" ++ ("example.com" ++ String.mk ['/', 'x']))
        = some ("example.com", "443")
    ∧ classifyHostPort "GET" ("http://" ++ ("example.com" ++ ":" ++ "8080" ++ String.mk ['/']))
        = some ("example.com", "8080")
    ∧ classifyHostPort "GET" "plainhost" = some ("plainhost", "80")
    ∧ classifyHostPort "GET" ("host" ++ ":" ++ "81") = some ("host", "81")
    ∧ (∃ s', parseLine exampleConfig "t 1 TCP_MISS/200 5 GET cache_object://info" emptyStats
        = .ok s' ∧ s'.DomainData = emptyStats.DomainData)
    ∧ (∃ s', parseLine exampleConfig "t 1 TCP_MISS/200 5 GET localhost:80" emptyStats
        = .ok s' ∧ s'.DomainData = emptyStats.DomainData) := by
  obtain ⟨c1, c2, c3, c4, c5, c6, c7, c8, c9⟩ := C9_host_port_classification
  exact ⟨c1 "example.com" (by decide),
    c2 "example.com" "8443" (by decide) (by decide),
    c3 "GET" "example.com" ['/', 'x'] (by decide) (by decide) (by decide),
    c4 "GET" "example.com" ['/', 'x'] (by decide) (by decide) (by decide),
    c5 "GET" "example.com" "8080" ['/'] (by decide) (by decide) (by decide) (by decide)
      (by decide),
    c6 "GET" "plainhost" (by decide) (by decide) (by decide) (by decide),
    c7 "GET" "host" "81" (by decide) (by decide) (by decide) (by decide) (by decide),
    c8 exampleConfig "t 1 TCP_MISS/200 5 GET cache_object://info" emptyStats
      (by decide) (by decide) (by decide),
    c9 exampleConfig "t 1 TCP_MISS/200 5 GET localhost:80" emptyStats ("localhost", "80")
      (by decide) (by decide) (by decide) (by decide)⟩

/-- Witness for C7 at p = 0.99 with samples [3, 1] and its reordering [1, 3]. -/
theorem C7_percentile_witness :
    calculatePercentile [] (0.99 : ℚ) = 0
    ∧ calculatePercentile [5] 0.99 = 5
    ∧ calculatePercentile [3, 1] 0.99 = calculatePercentile [1, 3] 0.99
    ∧ calculatePercentile [3, 1] 0.99 =
        (([3, 1] : List ℚ).insertionSort (· ≤ ·)).getD
          (min (⌊(([3, 1] : List ℚ).length : ℚ) * 0.99⌋).toNat
            (([3, 1] : List ℚ).length - 1)) 0 :=
  ⟨(C7_percentile [3, 1] [1, 3] 0.99 (Or.inr (Or.inr (Or.inr rfl))) (List.Perm.swap 1 3 [])).1,
   (C7_percentile [3, 1] [1, 3] 0.99 (Or.inr (Or.inr (Or.inr rfl))) (List.Perm.swap 1 3 [])).2.1,
   (C7_percentile [3, 1] [1, 3] 0.99 (Or.inr (Or.inr (Or.inr rfl))) (List.Perm.swap 1 3 [])).2.2.1,
   (C7_percentile [3, 1] [1, 3] 0.99 (Or.inr (Or.inr (Or.inr rfl)))
     (List.Perm.swap 1 3 [])).2.2.2 (by simp)⟩

/-! ## Cache hit/miss accounting (C10) -/

theorem listIsPrefix_iff_take : ∀ (pat l : List Char),
    listIsPrefix pat l = true ↔ l.take pat.length = pat := by
  intro pat
  induction pat with
  | nil =>
    intro l
    simp [listIsPrefix]
  | cons a as ih =>
    intro l
    cases l with
    | nil => simp [listIsPrefix]
    | cons b bs =>
      simp only [listIsPrefix, Bool.and_eq_true, beq_iff_eq, List.length_cons, List.take_succ_cons,
        List.cons.injEq, ih bs]
      constructor
      · rintro ⟨rfl, h⟩
        exact ⟨rfl, h⟩
      · rintro ⟨rfl, h⟩
        exact ⟨rfl, h⟩

theorem miss_not_hit (cs : String)
    (h : strStartsWith cs "TCP_MISS" = true) :
    (strStartsWith cs "TCP_HIT" || strStartsWith cs "TCP_MEM_HIT") = false := by
  have h8 : cs.data.take 8 = ("TCP_MISS" : String).data :=
    (listIsPrefix_iff_take _ _).mp h
  have hhit : strStartsWith cs "TCP_HIT" = false := by
    by_contra hcon
    have ht : strStartsWith cs "TCP_HIT" = true := by
      simpa using hcon
    have t7 : cs.data.take 7 = ("TCP_HIT" : String).data :=
      (listIsPrefix_iff_take _ _).mp ht
    have t7' : cs.data.take 7 = List.take 7 (cs.data.take 8) := by
      rw [List.take_take]
      norm_num
    rw [t7', h8] at t7
    exact absurd t7 (by decide)
  have hmem : strStartsWith cs "TCP_MEM_HIT" = false := by
    by_contra hcon
    have ht : strStartsWith cs "TCP_MEM_HIT" = true := by
      simpa using hcon
    have t11 : cs.data.take 11 = ("TCP_MEM_HIT" : String).data :=
      (listIsPrefix_iff_take _ _).mp ht
    have t8' : cs.data.take 8 = List.take 8 (cs.data.take 11) := by
      rw [List.take_take]
      norm_num
    rw [t11, h8] at t8'
    exact absurd t8' (by decide)
  simp [hhit, hmem]

theorem updateDomainStats_self (stats : Stats) (host port : String) (bytes : Int)
    (httpCode category : String) (dur : ℚ) (cs : String) :
    (alGet emptyDomainData
        (updateDomainStats stats host port bytes httpCode category dur cs).DomainData
        (host, port)).Requests
      = (alGet emptyDomainData stats.DomainData (host, port)).Requests + 1
    ∧ (alGet emptyDomainData
        (updateDomainStats stats host port bytes httpCode category dur cs).DomainData
        (host, port)).CacheHits
      = (alGet emptyDomainData stats.DomainData (host, port)).CacheHits
        + (if (strStartsWith cs "TCP_HIT" || strStartsWith cs "TCP_MEM_HIT") = true
           then 1 else 0)
    ∧ (alGet emptyDomainData
        (updateDomainStats stats host port bytes httpCode category dur cs).DomainData
        (host, port)).CacheMisses
      = (alGet emptyDomainData stats.DomainData (host, port)).CacheMisses
        + (if (!(strStartsWith cs "TCP_HIT" || strStartsWith cs "TCP_MEM_HIT")
              && strStartsWith cs "TCP_MISS") = true
           then 1 else 0) := by
  refine ⟨?_, ?_, ?_⟩ <;> simp [updateDomainStats, alGet_alSet_self]

theorem cacheInv_empty : cacheInv emptyStats := by
  intro key
  simp [emptyStats, emptyDomainData]

theorem cacheInv_updateDomainStats (stats : Stats) (host port : String) (bytes : Int)
    (httpCode category : String) (dur : ℚ) (cs : String) (hinv : cacheInv stats) :
    cacheInv (updateDomainStats stats host port bytes httpCode category dur cs) := by
  intro key
  by_cases hk : (host, port) = key
  · subst hk
    obtain ⟨hr, hh, hm⟩ := updateDomainStats_self stats host port bytes httpCode category dur cs
    rw [hr, hh, hm]
    have := hinv (host, port)
    by_cases hA : (strStartsWith cs "TCP_HIT" || strStartsWith cs "TCP_MEM_HIT") = true
    · rw [if_pos hA]
      have hfalse : (!(strStartsWith cs "TCP_HIT" || strStartsWith cs "TCP_MEM_HIT")
          && strStartsWith cs "TCP_MISS") = false := by
        rw [hA]
        rfl
      rw [if_neg (by rw [hfalse]; simp)]
      omega
    · rw [if_neg hA]
      by_cases hB : strStartsWith cs "TCP_MISS" = true
      · have hA' : (strStartsWith cs "TCP_HIT" || strStartsWith cs "TCP_MEM_HIT") = false := by
          simpa using hA
        rw [if_pos (by rw [hA', hB]; rfl)]
        omega
      · have hB' : strStartsWith cs "TCP_MISS" = false := by simpa using hB
        rw [if_neg (by rw [hB']; simp)]
        omega
  · simp only [updateDomainStats]
    rw [alGet_alSet_ne _ _ _ _ _ hk]
    exact hinv key

theorem cacheInv_parseLine (cfg : Config) (line : String) (stats s' : Stats)
    (hok : parseLine cfg line stats = .ok s') (hinv : cacheInv stats) : cacheInv s' := by
  simp only [parseLine] at hok
  by_cases h1 : (splitPreservingQuotes line).length ≤ cfg.logFormat.maxFieldIdx
  · rw [if_pos h1] at hok
    cases hok
  rw [if_neg h1] at hok
  by_cases h2 : (splitChar '/' (cfg.logFormat.GetField (splitPreservingQuotes line)
      "result_code")).length ≠ 2
  · rw [if_pos h2] at hok
    cases hok
  rw [if_neg h2] at hok
  by_cases h3 : isInternalURL (cfg.logFormat.GetField (splitPreservingQuotes line) "url") = true
  · rw [if_pos h3] at hok
    cases hok
    intro key
    exact hinv key
  rw [if_neg h3] at hok
  rcases hcl : classifyHostPort (cfg.logFormat.GetField (splitPreservingQuotes line) "method")
      (cfg.logFormat.GetField (splitPreservingQuotes line) "url") with _ | hpv
  · simp only [hcl] at hok
    cases hok
    intro key
    exact hinv key
  · simp only [hcl] at hok
    by_cases h4 : hpv.1 = "" ∨ hpv.1 = "-" ∨ hpv.1 = "localhost"
    · rw [if_pos h4] at hok
      cases hok
      intro key
      exact hinv key
    · rw [if_neg h4] at hok
      cases hok
      refine cacheInv_updateDomainStats _ _ _ _ _ _ _ _ ?_
      intro key
      exact hinv key

theorem cacheInv_step (cfg : Config) (st : Stats) (line : String) (hinv : cacheInv st) :
    cacheInv (match parseLine cfg line st with | .ok st' => st' | .error _ => st) := by
  rcases hok : parseLine cfg line st with e | st'
  · simp only
    exact hinv
  · simp only
    exact cacheInv_parseLine cfg line st st' hok hinv

theorem cacheInv_foldl (cfg : Config) : ∀ (lines : List String) (st : Stats),
    cacheInv st →
    cacheInv (lines.foldl
      (fun st line => match parseLine cfg line st with | .ok st' => st' | .error _ => st) st)
  | [], _, h => h
  | l :: ls, st, h => cacheInv_foldl cfg ls _ (cacheInv_step cfg st l h)

theorem cacheInv_runStats (cfg : Config) (lines : List String) :
    cacheInv (runStats cfg lines) :=
  cacheInv_foldl cfg lines emptyStats cacheInv_empty

/-- C10: for every per-domain accumulator produced by a run, CacheHits +
CacheMisses ≤ Requests; per line, CacheHits is incremented exactly when the
cache status starts with TCP_HIT or TCP_MEM_HIT, CacheMisses exactly when it
starts with TCP_MISS (the two prefix families are mutually exclusive), any
other cache status increments neither, and Requests is always incremented. -/
theorem C10_cache_hit_miss :
    (∀ (cfg : Config) (lines : List String) (key : String × String),
        (alGet emptyDomainData (runStats cfg lines).DomainData key).CacheHits
          + (alGet emptyDomainData (runStats cfg lines).DomainData key).CacheMisses
          ≤ (alGet emptyDomainData (runStats cfg lines).DomainData key).Requests)
    ∧ (∀ (stats : Stats) (host port : String) (bytes : Int) (httpCode category : String)
          (dur : ℚ) (cs : String),
        (alGet emptyDomainData
            (updateDomainStats stats host port bytes httpCode category dur cs).DomainData
            (host, port)).Requests
          = (alGet emptyDomainData stats.DomainData (host, port)).Requests + 1
        ∧ (alGet emptyDomainData
            (updateDomainStats stats host port bytes httpCode category dur cs).DomainData
            (host, port)).CacheHits
          = (alGet emptyDomainData stats.DomainData (host, port)).CacheHits
            + (if (strStartsWith cs "TCP_HIT" || strStartsWith cs "TCP_MEM_HIT") = true
               then 1 else 0)
        ∧ (alGet emptyDomainData
            (updateDomainStats stats host port bytes httpCode category dur cs).DomainData
            (host, port)).CacheMisses
          = (alGet emptyDomainData stats.DomainData (host, port)).CacheMisses
            + (if strStartsWith cs "TCP_MISS" = true then 1 else 0)) := by
  constructor
  · intro cfg lines key
    exact cacheInv_runStats cfg lines key
  · intro stats host port bytes httpCode category dur cs
    obtain ⟨hr, hh, hm⟩ := updateDomainStats_self stats host port bytes httpCode category dur cs
    refine ⟨hr, hh, ?_⟩
    rw [hm]
    by_cases hB : strStartsWith cs "TCP_MISS" = true
    · have hA := miss_not_hit cs hB
      rw [if_pos hB, if_pos (by rw [hA, hB]; rfl)]
    · have hB' : strStartsWith cs "TCP_MISS" = false := by simpa using hB
      rw [if_neg hB, if_neg (by rw [hB']; simp)]

/-! ## C3: the all-domains cardinality bound and the overflow series -/

theorem append_sep_eq (c : Char) : ∀ (x u y v : List Char), c ∉ x → c ∉ u →
    x ++ c :: y = u ++ c :: v → x = u ∧ y = v := by
  intro x
  induction x with
  | nil =>
    intro u y v _ hu h
    cases u with
    | nil => simpa using h
    | cons d us =>
      simp only [List.nil_append, List.cons_append, List.cons.injEq] at h
      exact absurd (h.1 ▸ List.mem_cons_self d us) hu
  | cons a as ih =>
    intro u y v hx hu h
    cases u with
    | nil =>
      simp only [List.cons_append, List.nil_append, List.cons.injEq] at h
      exact absurd (h.1 ▸ List.mem_cons_self a as) hx
    | cons d us =>
      simp only [List.cons_append, List.cons.injEq] at h
      obtain ⟨rfl, h2⟩ := h
      have hr := ih us y v (fun hc => hx (List.mem_cons_of_mem _ hc))
        (fun hc => hu (List.mem_cons_of_mem _ hc)) h2
      exact ⟨by rw [hr.1], hr.2⟩

theorem join_sep_data (h p : String) (sep : String) (c : Char) (hsep : sep.data = [c]) :
    (h ++ sep ++ p).data = h.data ++ c :: p.data := by
  rw [String.data_append, String.data_append, hsep, List.append_assoc]
  rfl

theorem join_colon_inj (h p h' p' : String) (hh : (':' : Char) ∉ h.data)
    (hh' : (':' : Char) ∉ h'.data) (he : h ++ ":" ++ p = h' ++ ":" ++ p') :
    h = h' ∧ p = p' := by
  have hd := congrArg String.data he
  rw [join_sep_data h p ":" ':' rfl, join_sep_data h' p' ":" ':' rfl] at hd
  have := append_sep_eq ':' h.data h'.data p.data p'.data hh hh' hd
  exact ⟨String.ext this.1, String.ext this.2⟩

theorem pipe_join_other (h p : String) (he : h ++ "|" ++ p = "__other__|0") :
    h = "__other__" ∧ p = "0" := by
  have hd : h.data ++ '|' :: p.data = ("__other__|0").data := by
    rw [← join_sep_data h p "|" '|' rfl, he]
  have hcount := congrArg (fun l => List.count '|' l) hd
  simp only [List.count_append, List.count_cons_self] at hcount
  have hc1 : List.count '|' ("__other__|0").data = 1 := by decide
  rw [hc1] at hcount
  have hh : ('|' : Char) ∉ h.data := by
    have : List.count '|' h.data = 0 := by omega
    exact List.count_eq_zero.mp this
  have htarget : ("__other__|0").data = ("__other__").data ++ '|' :: ("0").data := by decide
  rw [htarget] at hd
  have := append_sep_eq '|' h.data ("__other__").data p.data ("0").data hh (by decide) hd
  exact ⟨String.ext this.1, String.ext this.2⟩

theorem str_ne_of_take (a b : String) (n : Nat) (h : a.data.take n ≠ b.data.take n) :
    a ≠ b :=
  fun e => h (by rw [e])

theorem makeKey_data_take (x y : String) (rest : List String) (n : Nat)
    (hn : n ≤ x.data.length) :
    (Metrics.makeKey (x :: y :: rest)).data.take n = x.data.take n := by
  show ((x ++ "|" ++ Metrics.makeKey (y :: rest))).data.take n = _
  rw [String.data_append, String.data_append, List.append_assoc,
    List.take_append_eq_append_take, Nat.sub_eq_zero_of_le hn]
  simp

theorem makeKey_ne_of_take (n : Nat) (x y : String) (rest : List String) (target : String)
    (hn : n ≤ x.data.length) (h : x.data.take n ≠ target.data.take n) :
    Metrics.makeKey (x :: y :: rest) ≠ target := by
  apply str_ne_of_take _ _ n
  rw [makeKey_data_take x y rest n hn]
  exact h

theorem makeKey_allreq_other (h p : String)
    (he : Metrics.makeKey ["all_req", h, p] = "all_req|__other__|0") :
    h = "__other__" ∧ p = "0" := by
  have h1 : Metrics.makeKey ["all_req", h, p] = "all_req" ++ "|" ++ (h ++ "|" ++ p) := rfl
  rw [h1] at he
  have hd := congrArg String.data he
  rw [join_sep_data "all_req" (h ++ "|" ++ p) "|" '|' rfl] at hd
  have htarget : ("all_req|__other__|0").data =
      ("all_req").data ++ '|' :: ("__other__|0").data := by decide
  rw [htarget] at hd
  have hsplit := append_sep_eq '|' ("all_req").data ("all_req").data
    (h ++ "|" ++ p).data ("__other__|0").data (by decide) (by decide)
    (by rw [hd])
  exact pipe_join_other h p (String.ext hsplit.2)

theorem mem_of_contains {α : Type} [BEq α] [LawfulBEq α] {a : α} {l : List α}
    (h : l.contains a = true) : a ∈ l := by
  by_contra hm
  rw [contains_eq_false hm] at h
  cases h

theorem admit_seen_mono (k : Nat) (seen : List String) (dk : String) :
    seen ⊆ (admitDomain k seen dk).2 := by
  unfold admitDomain
  by_cases h1 : seen.contains dk
  · rw [if_pos h1]
    exact fun s hs => hs
  · rw [if_neg h1]
    by_cases h2 : seen.length < k
    · rw [if_pos h2]
      exact fun s hs => List.mem_append_left _ hs
    · rw [if_neg h2]
      exact fun s hs => hs

theorem admit_seen_sub (k : Nat) (seen : List String) (dk : String) :
    ∀ s ∈ (admitDomain k seen dk).2, s ∈ seen ∨ s = dk := by
  unfold admitDomain
  by_cases h1 : seen.contains dk
  · rw [if_pos h1]
    exact fun s hs => Or.inl hs
  · rw [if_neg h1]
    by_cases h2 : seen.length < k
    · rw [if_pos h2]
      intro s hs
      rcases List.mem_append.mp hs with hs | hs
      · exact Or.inl hs
      · exact Or.inr (List.mem_singleton.mp hs)
    · rw [if_neg h2]
      exact fun s hs => Or.inl hs

theorem admit_seen_len (k : Nat) (seen : List String) (dk : String)
    (h : seen.length ≤ k) : (admitDomain k seen dk).2.length ≤ k := by
  unfold admitDomain
  by_cases h1 : seen.contains dk
  · rw [if_pos h1]
    exact h
  · rw [if_neg h1]
    by_cases h2 : seen.length < k
    · rw [if_pos h2]
      simpa using h2
    · rw [if_neg h2]
      exact h

theorem admit_mem (k : Nat) (seen : List String) (dk : String)
    (h : (admitDomain k seen dk).1 = true) : dk ∈ (admitDomain k seen dk).2 := by
  unfold admitDomain at h ⊢
  by_cases h1 : seen.contains dk
  · rw [if_pos h1]
    exact mem_of_contains h1
  · rw [if_neg h1] at h ⊢
    by_cases h2 : seen.length < k
    · rw [if_pos h2]
      exact List.mem_append_right _ (List.mem_singleton.mpr rfl)
    · rw [if_neg h2] at h
      cases h

theorem seenAfter_mono (k : Nat) :
    ∀ (entries : List ((String × String) × DomainData)) (seen : List String),
      seen ⊆ seenAfter k seen entries
  | [], _ => fun _ hs => hs
  | e :: rest, seen => fun s hs =>
    seenAfter_mono k rest (admitDomain k seen (domKey e)).2
      (admit_seen_mono k seen (domKey e) hs)

theorem seenAfter_len (k : Nat) :
    ∀ (entries : List ((String × String) × DomainData)) (seen : List String),
      seen.length ≤ k → (seenAfter k seen entries).length ≤ k
  | [], _, h => h
  | e :: rest, seen, h =>
    seenAfter_len k rest (admitDomain k seen (domKey e)).2
      (admit_seen_len k seen (domKey e) h)

theorem seenAfter_sub (k : Nat) :
    ∀ (entries : List ((String × String) × DomainData)) (seen : List String),
      ∀ s ∈ seenAfter k seen entries, s ∈ seen ∨ ∃ e ∈ entries, s = domKey e := by
  intro entries
  induction entries with
  | nil =>
    intro seen s hs
    exact Or.inl hs
  | cons e rest ih =>
    intro seen s hs
    rcases ih (admitDomain k seen (domKey e)).2 s hs with hmem | ⟨e', he', rfl⟩
    · rcases admit_seen_sub k seen (domKey e) s hmem with hmem' | rfl
      · exact Or.inl hmem'
      · exact Or.inr ⟨e, List.mem_cons_self e rest, rfl⟩
    · exact Or.inr ⟨e', List.mem_cons_of_mem _ he', rfl⟩

theorem excludedRequests_nonneg (k : Nat) :
    ∀ (entries : List ((String × String) × DomainData)) (seen : List String),
      0 ≤ excludedRequests k seen entries := by
  intro entries
  induction entries with
  | nil =>
    intro seen
    exact le_refl 0
  | cons e rest ih =>
    intro seen
    show 0 ≤ (if (admitDomain k seen (domKey e)).1 then 0 else (e.2.Requests : ℚ))
      + excludedRequests k (admitDomain k seen (domKey e)).2 rest
    have h1 : (0 : ℚ) ≤ if (admitDomain k seen (domKey e)).1 then 0 else (e.2.Requests : ℚ) := by
      split
      · exact le_refl 0
      · exact_mod_cast Nat.zero_le _
    exact add_nonneg h1 (ih _)

theorem excludedRequests_pos (k : Nat) :
    ∀ (entries : List ((String × String) × DomainData)) (seen : List String),
      seen.length ≤ k →
      (∀ e ∈ entries, domKey e ∉ seen) →
      (entries.map domKey).Nodup →
      (∀ e ∈ entries, 1 ≤ e.2.Requests) →
      k < seen.length + entries.length →
      0 < excludedRequests k seen entries := by
  intro entries
  induction entries with
  | nil =>
    intro seen hlen _ _ _ hm
    simp at hm
    omega
  | cons e rest ih =>
    intro seen hlen hfresh hnd hpos hm
    have hcont : seen.contains (domKey e) = false :=
      contains_eq_false (hfresh e (List.mem_cons_self e rest))
    show 0 < (if (admitDomain k seen (domKey e)).1 then 0 else (e.2.Requests : ℚ))
      + excludedRequests k (admitDomain k seen (domKey e)).2 rest
    by_cases h2 : seen.length < k
    · have hadm : admitDomain k seen (domKey e) = (true, seen ++ [domKey e]) := by
        unfold admitDomain
        rw [hcont]
        simp only [Bool.false_eq_true, if_false]
        rw [if_pos h2]
      rw [hadm]
      have htt : ((true, seen ++ [domKey e]).1 = true) := rfl
      rw [if_pos htt, zero_add]
      apply ih (seen ++ [domKey e])
      · simpa using h2
      · intro e' he' hmem
        rcases List.mem_append.mp hmem with hmem | hmem
        · exact hfresh e' (List.mem_cons_of_mem _ he') hmem
        · have : domKey e' = domKey e := List.mem_singleton.mp hmem
          have hnd' := (List.nodup_cons.mp hnd).1
          exact hnd' (this ▸ List.mem_map_of_mem domKey he')
      · exact (List.nodup_cons.mp hnd).2
      · exact fun e' he' => hpos e' (List.mem_cons_of_mem _ he')
      · simp only [List.length_append, List.length_singleton, List.length_cons] at hm ⊢
        omega
    · have hadm : admitDomain k seen (domKey e) = (false, seen) := by
        unfold admitDomain
        rw [hcont]
        simp only [Bool.false_eq_true, if_false]
        rw [if_neg h2]
      rw [hadm]
      simp only [Bool.false_eq_true, if_false]
      have h1 : (1 : ℚ) ≤ (e.2.Requests : ℚ) := by
        exact_mod_cast hpos e (List.mem_cons_self e rest)
      have h0 := excludedRequests_nonneg k rest seen
      linarith

theorem nodup_alKeys_alSet [DecidableEq κ] (m : List (κ × β)) (k : κ) (v : β)
    (h : (alKeys m).Nodup) : (alKeys (alSet m k v)).Nodup := by
  rw [alKeys_alSet]
  by_cases hm : k ∈ alKeys m
  · rw [if_pos hm]
    exact h
  · rw [if_neg hm]
    rw [List.nodup_append]
    refine ⟨h, List.nodup_singleton k, ?_⟩
    intro a ha hb
    rw [List.mem_singleton] at hb
    subst hb
    exact hm ha

theorem countersInv_mono {seen seen' : List String} (hsub : seen ⊆ seen')
    (ms : MetricsState) (hinv : countersInv seen ms) : countersInv seen' ms := by
  obtain ⟨hnd, hov, hall⟩ := hinv
  refine ⟨hnd, hov, ?_⟩
  intro ck hck hhead
  obtain ⟨h, p, hshape, hcol, hmem⟩ := hall ck hck hhead
  exact ⟨h, p, hshape, hcol, hsub hmem⟩

theorem countersInv_applyDelta (seen : List String) (ms : MetricsState) (lk : String)
    (ck₀ : List String) (v : ℚ)
    (hck : ck₀.headD "" = "squid_all_domains_requests_total" →
      ck₀ ≠ ["squid_all_domains_requests_total", "__other__", "0"] ∧
      ∃ h p, ck₀ = ["squid_all_domains_requests_total", h, p]
        ∧ (':' : Char) ∉ h.data ∧ (h ++ ":" ++ p) ∈ seen)
    (hinv : countersInv seen ms) :
    countersInv seen (Metrics.applyDelta ms lk ck₀ v) := by
  obtain ⟨hnd, hov, hall⟩ := hinv
  have hc := Metrics.applyDelta_counters ms lk ck₀ v
  by_cases hd : 0 < v - alGet 0 ms.lastSeen lk
  · rw [if_pos hd] at hc
    unfold countersInv
    rw [hc]
    refine ⟨nodup_alKeys_alSet _ _ _ hnd, ?_, ?_⟩
    · intro hmem
      rcases (mem_alKeys_alSet _ _ _ _).mp hmem with hmem | heq
      · exact hov hmem
      · have := (hck (by rw [← heq]; rfl)).1
        exact this heq.symm
    · intro ck hckmem hhead
      rcases (mem_alKeys_alSet _ _ _ _).mp hckmem with hmem | heq
      · exact hall ck hmem hhead
      · subst heq
        exact (hck hhead).2
  · rw [if_neg hd] at hc
    unfold countersInv
    rw [hc]
    exact ⟨hnd, hov, hall⟩

theorem countersInv_foldl {α : Type} (seen : List String) (f : MetricsState → α → MetricsState)
    (hf : ∀ (ms : MetricsState) (a : α), countersInv seen ms → countersInv seen (f ms a)) :
    ∀ (l : List α) (ms : MetricsState), countersInv seen ms → countersInv seen (l.foldl f ms)
  | [], _, h => h
  | a :: l, ms, h => countersInv_foldl seen f hf l (f ms a) (hf ms a h)

theorem countersInv_UpdateAllDomains (seen : List String) (ms : MetricsState)
    (h p : String) (rq bi bo : ℚ) (cats : List (String × Nat))
    (hhp : (':' : Char) ∉ h.data) (hmem : (h ++ ":" ++ p) ∈ seen)
    (hne : (h, p) ≠ ("__other__", "0"))
    (hinv : countersInv seen ms) :
    countersInv seen (Metrics.UpdateAllDomains ms h p rq bi bo cats) := by
  unfold Metrics.UpdateAllDomains
  apply countersInv_foldl seen _ ?hstep cats
  case hstep =>
    intro ms' kv hinv'
    apply countersInv_applyDelta
    · intro hhead
      rw [List.headD_cons] at hhead
      exact absurd hhead (by decide)
    · exact hinv'
  apply countersInv_applyDelta _ _ _ _ _ (fun hhead => absurd (List.headD_cons .. ▸ hhead) (by decide))
  apply countersInv_applyDelta _ _ _ _ _ (fun hhead => absurd (List.headD_cons .. ▸ hhead) (by decide))
  apply countersInv_applyDelta
  · intro hhead
    constructor
    · intro heq
      simp only [List.cons.injEq, and_true] at heq
      exact hne (by rw [heq.2.1, heq.2.2])
    · exact ⟨h, p, rfl, hhp, hmem⟩
  · exact hinv

theorem lastSeenK_foldl {α : Type} (f : MetricsState → α → MetricsState)
    (hf : ∀ (ms : MetricsState) (a : α),
      alGet 0 (f ms a).lastSeen "all_req|__other__|0" = alGet 0 ms.lastSeen "all_req|__other__|0") :
    ∀ (l : List α) (ms : MetricsState),
      alGet 0 (l.foldl f ms).lastSeen "all_req|__other__|0"
        = alGet 0 ms.lastSeen "all_req|__other__|0"
  | [], _ => rfl
  | a :: l, ms => (lastSeenK_foldl f hf l (f ms a)).trans (hf ms a)

theorem lastSeenK_UpdateAllDomains (ms : MetricsState) (h p : String) (rq bi bo : ℚ)
    (cats : List (String × Nat)) (hne : (h, p) ≠ ("__other__", "0")) :
    alGet 0 (Metrics.UpdateAllDomains ms h p rq bi bo cats).lastSeen "all_req|__other__|0"
      = alGet 0 ms.lastSeen "all_req|__other__|0" := by
  unfold Metrics.UpdateAllDomains
  rw [lastSeenK_foldl _ ?hstep cats]
  case hstep =>
    intro ms' kv
    exact Metrics.applyDelta_lastSeen_ne _ _ _ _ _
      (makeKey_ne_of_take 5 "all_http_cat" h [p, kv.1] _ (by decide) (by decide))
  rw [Metrics.applyDelta_lastSeen_ne _ _ _ _ _
    (makeKey_ne_of_take 5 "all_bytes_out" h [p] _ (by decide) (by decide))]
  rw [Metrics.applyDelta_lastSeen_ne _ _ _ _ _
    (makeKey_ne_of_take 5 "all_bytes_in" h [p] _ (by decide) (by decide))]
  rw [Metrics.applyDelta_lastSeen_ne]
  intro he
  obtain ⟨h1, h2⟩ := makeKey_allreq_other h p he
  exact hne (by rw [h1, h2])

theorem lastSeenK_setGlobalStats (stats : Stats) (ms : MetricsState) :
    alGet 0 (setGlobalStats stats ms).lastSeen "all_req|__other__|0"
      = alGet 0 ms.lastSeen "all_req|__other__|0" := by
  unfold setGlobalStats
  rw [lastSeenK_foldl _ ?h1 stats.HTTPResponses]
  case h1 =>
    intro ms' kv
    exact Metrics.applyDelta_lastSeen_ne _ _ _ _ _
      (makeKey_ne_of_take 1 "http" kv.1.1 [kv.1.2] _ (by decide) (by decide))
  rw [lastSeenK_foldl _ ?h2 stats.CacheStatuses]
  case h2 =>
    intro ms' kv
    exact Metrics.applyDelta_lastSeen_ne _ _ _ _ _
      (makeKey_ne_of_take 1 "cache" kv.1 [] _ (by decide) (by decide))
  rw [lastSeenK_foldl _ ?h3 stats.RequestDurations]
  case h3 =>
    intro ms' kv
    exact Metrics.applyDelta_lastSeen_ne _ _ _ _ _
      (makeKey_ne_of_take 1 "duration" kv.1 [] _ (by decide) (by decide))
  exact Metrics.applyDelta_lastSeen_ne _ _ _ _ _ (by decide)

theorem countersInv_setGlobalStats (seen : List String) (stats : Stats) (ms : MetricsState)
    (hinv : countersInv seen ms) : countersInv seen (setGlobalStats stats ms) := by
  unfold setGlobalStats
  apply countersInv_foldl seen _ ?h1 stats.HTTPResponses
  case h1 =>
    intro ms' kv hinv'
    exact countersInv_applyDelta _ _ _ _ _
      (fun hhead => absurd (List.headD_cons .. ▸ hhead) (by decide)) hinv'
  apply countersInv_foldl seen _ ?h2 stats.CacheStatuses
  case h2 =>
    intro ms' kv hinv'
    exact countersInv_applyDelta _ _ _ _ _
      (fun hhead => absurd (List.headD_cons .. ▸ hhead) (by decide)) hinv'
  apply countersInv_foldl seen _ ?h3 stats.RequestDurations
  case h3 =>
    intro ms' kv hinv'
    exact countersInv_applyDelta _ _ _ _ _
      (fun hhead => absurd (List.headD_cons .. ▸ hhead) (by decide)) hinv'
  exact countersInv_applyDelta _ _ _ _ _
    (fun hhead => absurd (List.headD_cons .. ▸ hhead) (by decide)) hinv

theorem domainStep_eval (cfg : Config) (k : Nat) (hk : cfg.maxDomains = k)
    (htrack : cfg.trackAllDomains = true)
    (hmono : ∀ h p, cfg.IsMonitored h p = none)
    (seen : List String) (other : OtherAcc) (ms : MetricsState)
    (eh ep : String) (edata : DomainData) :
    domainStep cfg (⟨seen⟩, other, ms) ((eh, ep), edata) =
      if (admitDomain k seen (eh ++ ":" ++ ep)).1 then
        (⟨(admitDomain k seen (eh ++ ":" ++ ep)).2⟩, other,
          Metrics.UpdateAllDomains ms eh ep (edata.Requests : ℚ) (edata.BytesIn : ℚ)
            (edata.BytesOut : ℚ) edata.ResponsesByCategory)
      else
        (⟨(admitDomain k seen (eh ++ ":" ++ ep)).2⟩,
          { requests := other.requests + (edata.Requests : ℚ),
            bytesIn := other.bytesIn + (edata.BytesIn : ℚ),
            bytesOut := other.bytesOut + (edata.BytesOut : ℚ),
            byCategory := edata.ResponsesByCategory.foldl
              (fun m kv => alSet m kv.1 (alGet 0 m kv.1 + kv.2)) other.byCategory },
          ms) := by
  simp only [domainStep, domainStepTrack, hmono, htrack, hk, if_true]

theorem domainLoop_inv (cfg : Config) (k : Nat) (hk : cfg.maxDomains = k)
    (htrack : cfg.trackAllDomains = true)
    (hmono : ∀ h p, cfg.IsMonitored h p = none) :
    ∀ (entries : List ((String × String) × DomainData)) (seen : List String)
      (other : OtherAcc) (ms : MetricsState),
      (∀ e ∈ entries, (':' : Char) ∉ e.1.1.data) →
      (∀ e ∈ entries, e.1 ≠ ("__other__", "0")) →
      countersInv seen ms →
      (entries.foldl (domainStep cfg) (⟨seen⟩, other, ms)).1.allDomainsSeen
          = seenAfter k seen entries
      ∧ (entries.foldl (domainStep cfg) (⟨seen⟩, other, ms)).2.1.requests
          = other.requests + excludedRequests k seen entries
      ∧ countersInv (seenAfter k seen entries)
          (entries.foldl (domainStep cfg) (⟨seen⟩, other, ms)).2.2
      ∧ alGet 0 (entries.foldl (domainStep cfg) (⟨seen⟩, other, ms)).2.2.lastSeen
            "all_req|__other__|0"
          = alGet 0 ms.lastSeen "all_req|__other__|0" := by
  intro entries
  induction entries with
  | nil =>
    intro seen other ms _ _ hinv
    exact ⟨rfl, (add_zero _).symm, hinv, rfl⟩
  | cons e rest ih =>
    obtain ⟨⟨eh, ep⟩, edata⟩ := e
    intro seen other ms hcolon hres hinv
    rw [List.foldl_cons, domainStep_eval cfg k hk htrack hmono]
    have hdk : domKey ((eh, ep), edata) = eh ++ ":" ++ ep := rfl
    by_cases hadm : (admitDomain k seen (eh ++ ":" ++ ep)).1 = true
    · rw [if_pos hadm]
      have hmem : (eh ++ ":" ++ ep) ∈ (admitDomain k seen (eh ++ ":" ++ ep)).2 :=
        admit_mem k seen _ hadm
      have hne : (eh, ep) ≠ ("__other__", "0") :=
        hres ((eh, ep), edata) (List.mem_cons_self _ _)
      have hinv' : countersInv (admitDomain k seen (eh ++ ":" ++ ep)).2
          (Metrics.UpdateAllDomains ms eh ep (edata.Requests : ℚ) (edata.BytesIn : ℚ)
            (edata.BytesOut : ℚ) edata.ResponsesByCategory) := by
        apply countersInv_UpdateAllDomains _ _ _ _ _ _ _ _
          (hcolon ((eh, ep), edata) (List.mem_cons_self _ _)) hmem hne
        exact countersInv_mono (admit_seen_mono k seen _) ms hinv
      obtain ⟨ih1, ih2, ih3, ih4⟩ := ih (admitDomain k seen (eh ++ ":" ++ ep)).2 other
        (Metrics.UpdateAllDomains ms eh ep (edata.Requests : ℚ) (edata.BytesIn : ℚ)
          (edata.BytesOut : ℚ) edata.ResponsesByCategory)
        (fun e' he' => hcolon e' (List.mem_cons_of_mem _ he'))
        (fun e' he' => hres e' (List.mem_cons_of_mem _ he')) hinv'
      refine ⟨?_, ?_, ?_, ?_⟩
      · rw [ih1]
        rfl
      · rw [ih2]
        show _ = other.requests
          + ((if (admitDomain k seen (domKey ((eh, ep), edata))).1 then 0
              else ((edata.Requests : ℚ)))
            + excludedRequests k (admitDomain k seen (domKey ((eh, ep), edata))).2 rest)
        rw [hdk, if_pos hadm, zero_add]
      · exact ih3
      · rw [ih4,
          lastSeenK_UpdateAllDomains ms eh ep (edata.Requests : ℚ) (edata.BytesIn : ℚ)
            (edata.BytesOut : ℚ) edata.ResponsesByCategory hne]
    · rw [if_neg hadm]
      have hadm' : (admitDomain k seen (eh ++ ":" ++ ep)).1 = false := by
        simpa using hadm
      have hinv' : countersInv (admitDomain k seen (eh ++ ":" ++ ep)).2 ms :=
        countersInv_mono (admit_seen_mono k seen _) ms hinv
      obtain ⟨ih1, ih2, ih3, ih4⟩ := ih (admitDomain k seen (eh ++ ":" ++ ep)).2
        { requests := other.requests + (edata.Requests : ℚ),
          bytesIn := other.bytesIn + (edata.BytesIn : ℚ),
          bytesOut := other.bytesOut + (edata.BytesOut : ℚ),
          byCategory := edata.ResponsesByCategory.foldl
            (fun m kv => alSet m kv.1 (alGet 0 m kv.1 + kv.2)) other.byCategory }
        ms
        (fun e' he' => hcolon e' (List.mem_cons_of_mem _ he'))
        (fun e' he' => hres e' (List.mem_cons_of_mem _ he')) hinv'
      refine ⟨?_, ?_, ?_, ?_⟩
      · rw [ih1]
        rfl
      · rw [ih2]
        show _ = other.requests
          + ((if (admitDomain k seen (domKey ((eh, ep), edata))).1 then 0
              else ((edata.Requests : ℚ)))
            + excludedRequests k (admitDomain k seen (domKey ((eh, ep), edata))).2 rest)
        rw [hdk, if_neg (fun hc => absurd (hadm'.symm.trans hc) (by decide))]
        rw [add_assoc]
      · exact ih3
      · exact ih4

theorem countersPost_applyDelta (seen : List String) (ms : MetricsState) (lk : String)
    (ck₀ : List String) (v : ℚ)
    (hck : ck₀.headD "" = "squid_all_domains_requests_total" →
      ck₀ ≠ ["squid_all_domains_requests_total", "__other__", "0"] →
      ∃ h p, ck₀ = ["squid_all_domains_requests_total", h, p]
        ∧ (':' : Char) ∉ h.data ∧ (h ++ ":" ++ p) ∈ seen)
    (hinv : countersPost seen ms) :
    countersPost seen (Metrics.applyDelta ms lk ck₀ v) := by
  obtain ⟨hnd, hall⟩ := hinv
  have hc := Metrics.applyDelta_counters ms lk ck₀ v
  by_cases hd : 0 < v - alGet 0 ms.lastSeen lk
  · rw [if_pos hd] at hc
    unfold countersPost
    rw [hc]
    refine ⟨nodup_alKeys_alSet _ _ _ hnd, ?_⟩
    intro ck hckmem hhead hne
    rcases (mem_alKeys_alSet _ _ _ _).mp hckmem with hmem | heq
    · exact hall ck hmem hhead hne
    · subst heq
      exact hck hhead hne
  · rw [if_neg hd] at hc
    unfold countersPost
    rw [hc]
    exact ⟨hnd, hall⟩

theorem countersPost_foldl {α : Type} (seen : List String)
    (f : MetricsState → α → MetricsState)
    (hf : ∀ (ms : MetricsState) (a : α), countersPost seen ms → countersPost seen (f ms a)) :
    ∀ (l : List α) (ms : MetricsState), countersPost seen ms → countersPost seen (l.foldl f ms)
  | [], _, h => h
  | a :: l, ms, h => countersPost_foldl seen f hf l (f ms a) (hf ms a h)

theorem countersPost_UpdateAllDomains_other (seen : List String) (ms : MetricsState)
    (rq bi bo : ℚ) (cats : List (String × Nat)) (hinv : countersPost seen ms) :
    countersPost seen (Metrics.UpdateAllDomains ms "__other__" "0" rq bi bo cats) := by
  unfold Metrics.UpdateAllDomains
  apply countersPost_foldl seen _ ?hstep cats
  case hstep =>
    intro ms' kv hinv'
    exact countersPost_applyDelta _ _ _ _ _
      (fun hhead _ => absurd (List.headD_cons .. ▸ hhead) (by decide)) hinv'
  apply countersPost_applyDelta _ _ _ _ _
    (fun hhead _ => absurd (List.headD_cons .. ▸ hhead) (by decide))
  apply countersPost_applyDelta _ _ _ _ _
    (fun hhead _ => absurd (List.headD_cons .. ▸ hhead) (by decide))
  apply countersPost_applyDelta _ _ _ _ _
    (fun _ hne => absurd rfl hne)
  exact hinv

theorem indiv_series_bound (seen : List String) (ms : MetricsState)
    (hinv : countersPost seen ms) :
    ((alKeys ms.counters).filter
      (fun ck => ck.headD "" == "squid_all_domains_requests_total"
        && ck != ["squid_all_domains_requests_total", "__other__", "0"])).length
      ≤ seen.length := by
  obtain ⟨hnd, hall⟩ := hinv
  have hl_nd := hnd.filter
    (fun ck => ck.headD "" == "squid_all_domains_requests_total"
      && ck != ["squid_all_domains_requests_total", "__other__", "0"])
  have hprop : ∀ ck ∈ (alKeys ms.counters).filter
      (fun ck => ck.headD "" == "squid_all_domains_requests_total"
        && ck != ["squid_all_domains_requests_total", "__other__", "0"]),
      ∃ h p, ck = ["squid_all_domains_requests_total", h, p]
        ∧ (':' : Char) ∉ h.data ∧ (h ++ ":" ++ p) ∈ seen := by
    intro ck hck
    have hmem := List.mem_of_mem_filter hck
    have hfil := List.of_mem_filter hck
    rw [Bool.and_eq_true, beq_iff_eq, bne_iff_ne] at hfil
    exact hall ck hmem hfil.1 hfil.2
  have hmap_nd : (((alKeys ms.counters).filter
      (fun ck => ck.headD "" == "squid_all_domains_requests_total"
        && ck != ["squid_all_domains_requests_total", "__other__", "0"])).map
      (fun ck => (ck.getD 1 "") ++ ":" ++ (ck.getD 2 ""))).Nodup := by
    apply List.Nodup.map_on ?_ hl_nd
    intro x hx y hy hxy
    obtain ⟨hx1, px, hxs, hxc, _⟩ := hprop x hx
    obtain ⟨hy1, py, hys, hyc, _⟩ := hprop y hy
    subst hxs
    subst hys
    simp only [List.getD_cons_succ, List.getD_cons_zero] at hxy
    obtain ⟨he, hp⟩ := join_colon_inj hx1 px hy1 py hxc hyc hxy
    rw [he, hp]
  have hsub : (((alKeys ms.counters).filter
      (fun ck => ck.headD "" == "squid_all_domains_requests_total"
        && ck != ["squid_all_domains_requests_total", "__other__", "0"])).map
      (fun ck => (ck.getD 1 "") ++ ":" ++ (ck.getD 2 ""))) ⊆ seen := by
    intro s hs
    obtain ⟨ck, hck, rfl⟩ := List.mem_map.mp hs
    obtain ⟨h, p, hshape, _, hmem⟩ := hprop ck hck
    subst hshape
    simpa using hmem
  calc ((alKeys ms.counters).filter
      (fun ck => ck.headD "" == "squid_all_domains_requests_total"
        && ck != ["squid_all_domains_requests_total", "__other__", "0"])).length
      = (((alKeys ms.counters).filter
      (fun ck => ck.headD "" == "squid_all_domains_requests_total"
        && ck != ["squid_all_domains_requests_total", "__other__", "0"])).map
      (fun ck => (ck.getD 1 "") ++ ":" ++ (ck.getD 2 ""))).length := by
        rw [List.length_map]
    _ ≤ seen.length := (hmap_nd.subperm hsub).length_le

theorem applyDelta_counters_get_ne (ms : MetricsState) (lk : String) (ck₀ : List String)
    (v : ℚ) (ck : List String) (hne : ck₀ ≠ ck) :
    alGet 0 (Metrics.applyDelta ms lk ck₀ v).counters ck = alGet 0 ms.counters ck := by
  rw [Metrics.applyDelta_counters]
  split
  · exact alGet_alSet_ne _ _ _ _ _ hne
  · rfl

theorem applyDelta_counters_count_ne (ms : MetricsState) (lk : String) (ck₀ : List String)
    (v : ℚ) (ck : List String) (hne : ck₀ ≠ ck) :
    List.count ck (alKeys (Metrics.applyDelta ms lk ck₀ v).counters)
      = List.count ck (alKeys ms.counters) := by
  rw [Metrics.applyDelta_counters]
  split
  · rw [alKeys_alSet]
    split
    · rfl
    · rw [List.count_append, List.count_cons, List.count_nil]
      rw [beq_eq_false_iff_ne.mpr hne]
      simp
  · rfl

theorem counters_get_foldl {α : Type} (f : MetricsState → α → MetricsState)
    (ck : List String)
    (hf : ∀ (ms : MetricsState) (a : α),
      alGet 0 (f ms a).counters ck = alGet 0 ms.counters ck) :
    ∀ (l : List α) (ms : MetricsState),
      alGet 0 (l.foldl f ms).counters ck = alGet 0 ms.counters ck
  | [], _ => rfl
  | a :: l, ms => (counters_get_foldl f ck hf l (f ms a)).trans (hf ms a)

theorem counters_count_foldl {α : Type} (f : MetricsState → α → MetricsState)
    (ck : List String)
    (hf : ∀ (ms : MetricsState) (a : α),
      List.count ck (alKeys (f ms a).counters) = List.count ck (alKeys ms.counters)) :
    ∀ (l : List α) (ms : MetricsState),
      List.count ck (alKeys (l.foldl f ms).counters) = List.count ck (alKeys ms.counters)
  | [], _ => rfl
  | a :: l, ms => (counters_count_foldl f ck hf l (f ms a)).trans (hf ms a)

theorem overflow_final (ms : MetricsState) (rq bi bo : ℚ) (cats : List (String × Nat))
    (hK : alGet 0 ms.lastSeen "all_req|__other__|0" = 0)
    (hOC : ["squid_all_domains_requests_total", "__other__", "0"] ∉ alKeys ms.counters)
    (hR : 0 < rq) :
    alGet 0 (Metrics.UpdateAllDomains ms "__other__" "0" rq bi bo cats).counters
        ["squid_all_domains_requests_total", "__other__", "0"] = rq
    ∧ List.count ["squid_all_domains_requests_total", "__other__", "0"]
        (alKeys (Metrics.UpdateAllDomains ms "__other__" "0" rq bi bo cats).counters) = 1 := by
  unfold Metrics.UpdateAllDomains
  have hcatne : ∀ kv : String × Nat,
      (["squid_all_domains_http_responses_total", "__other__", "0", kv.1] : List String)
        ≠ ["squid_all_domains_requests_total", "__other__", "0"] := by
    intro kv he
    rw [List.cons.injEq] at he
    exact absurd he.1 (by decide)
  have hstep1 : alGet 0 (Metrics.applyDelta ms (Metrics.makeKey ["all_req", "__other__", "0"])
      ["squid_all_domains_requests_total", "__other__", "0"] rq).counters
      ["squid_all_domains_requests_total", "__other__", "0"] = rq := by
    rw [Metrics.applyDelta_counters]
    have hmk : Metrics.makeKey ["all_req", "__other__", "0"] = "all_req|__other__|0" := by decide
    rw [hmk, hK, sub_zero, if_pos hR, alGet_alSet_self, alGet_of_not_mem _ _ _ hOC, zero_add]
  have hstep1c : List.count ["squid_all_domains_requests_total", "__other__", "0"]
      (alKeys (Metrics.applyDelta ms (Metrics.makeKey ["all_req", "__other__", "0"])
        ["squid_all_domains_requests_total", "__other__", "0"] rq).counters) = 1 := by
    rw [Metrics.applyDelta_counters]
    have hmk : Metrics.makeKey ["all_req", "__other__", "0"] = "all_req|__other__|0" := by decide
    rw [hmk, hK, sub_zero, if_pos hR, alKeys_alSet, if_neg hOC, List.count_append]
    rw [List.count_eq_zero_of_not_mem hOC, List.count_cons, List.count_nil]
    simp
  constructor
  · rw [counters_get_foldl _ _ ?hcat1 cats]
    case hcat1 =>
      intro ms' kv
      exact applyDelta_counters_get_ne _ _ _ _ _ (hcatne kv)
    rw [applyDelta_counters_get_ne _ _ _ _ _ (by decide)]
    rw [applyDelta_counters_get_ne _ _ _ _ _ (by decide)]
    exact hstep1
  · rw [counters_count_foldl _ _ ?hcat2 cats]
    case hcat2 =>
      intro ms' kv
      exact applyDelta_counters_count_ne _ _ _ _ _ (hcatne kv)
    rw [applyDelta_counters_count_ne _ _ _ _ _ (by decide)]
    rw [applyDelta_counters_count_ne _ _ _ _ _ (by decide)]
    exact hstep1c

/-- C3 (amended): with tracking enabled and `maxDomains = k`, starting from a
fresh seen-set and an empty metrics registry, for ingested domain data
covering more than `k` distinct domain keys — PROVIDED no ingested key equals
the reserved overflow key `("__other__", "0")` (the claim fails without this
exclusion, see the counterexample) — at most `k` individual all-domains
request series exist, exactly one overflow series keyed
`("__other__", "0")` exists, its request count equals the sum of the request
counts of the entries not admitted individually, a key already in the
seen-set is always tracked, and a new key is admitted iff the seen-set size
is below `maxDomains`. -/
theorem C3_cardinality_overflow (cfg : Config) (stats : Stats) (ms : MetricsState) (k : Nat)
    (hk : cfg.maxDomains = k)
    (htrack : cfg.trackAllDomains = true)
    (hmon : cfg.monitoredDomains = [] ∧ cfg.domainPatterns = [])
    (hms : ms.lastSeen = [] ∧ ms.counters = [])
    (hnores : ∀ e ∈ stats.DomainData, e.1 ≠ ("__other__", "0"))
    (hcolon : ∀ e ∈ stats.DomainData, (':' : Char) ∉ e.1.1.data)
    (hpos : ∀ e ∈ stats.DomainData, 1 ≤ e.2.Requests)
    (hnodup : (stats.DomainData.map domKey).Nodup)
    (hm : k < stats.DomainData.length) :
    (updateMetrics cfg stats ⟨[]⟩ ms).1.allDomainsSeen.length ≤ k
    ∧ ((alKeys (updateMetrics cfg stats ⟨[]⟩ ms).2.counters).filter
        (fun ck => ck.headD "" == "squid_all_domains_requests_total"
          && ck != ["squid_all_domains_requests_total", "__other__", "0"])).length ≤ k
    ∧ List.count ["squid_all_domains_requests_total", "__other__", "0"]
        (alKeys (updateMetrics cfg stats ⟨[]⟩ ms).2.counters) = 1
    ∧ alGet 0 (updateMetrics cfg stats ⟨[]⟩ ms).2.counters
        ["squid_all_domains_requests_total", "__other__", "0"]
        = excludedRequests k [] stats.DomainData
    ∧ (∀ (seen : List String) (dk : String), seen.contains dk = true →
        admitDomain k seen dk = (true, seen))
    ∧ (∀ (seen : List String) (dk : String), seen.contains dk = false →
        ((admitDomain k seen dk).1 = true ↔ seen.length < k)) := by
  obtain ⟨hml, hmc⟩ := hms
  obtain ⟨hmon1, hmon2⟩ := hmon
  have hmono : ∀ h p, cfg.IsMonitored h p = none := by
    intro h p
    simp [Config.IsMonitored, hmon1, hmon2]
  have hinv0 : countersInv [] ms := by
    refine ⟨?_, ?_, ?_⟩
    · rw [hmc]
      exact List.nodup_nil
    · rw [hmc]
      simp [alKeys]
    · rw [hmc]
      intro ck hck
      simp [alKeys] at hck
  have hinv1 : countersInv [] (setGlobalStats stats ms) :=
    countersInv_setGlobalStats _ _ _ hinv0
  have hK1 : alGet 0 (setGlobalStats stats ms).lastSeen "all_req|__other__|0" = 0 := by
    rw [lastSeenK_setGlobalStats, hml]
    rfl
  obtain ⟨h1, h2, h3, h4⟩ := domainLoop_inv cfg k hk htrack hmono stats.DomainData []
    emptyOtherAcc (setGlobalStats stats ms) hcolon hnores hinv1
  set res := stats.DomainData.foldl (domainStep cfg) (⟨[]⟩, emptyOtherAcc, setGlobalStats stats ms)
    with hres_def
  have hE : res.2.1.requests = excludedRequests k [] stats.DomainData := by
    rw [h2]
    show (0 : ℚ) + _ = _
    rw [zero_add]
  have hEpos : 0 < excludedRequests k [] stats.DomainData := by
    apply excludedRequests_pos k stats.DomainData [] (Nat.zero_le k)
    · intro e _ hmem
      cases hmem
    · exact hnodup
    · exact hpos
    · simpa using hm
  have hcond : (cfg.trackAllDomains && decide (0 < res.2.1.requests)) = true := by
    rw [htrack, hE]
    simp [hEpos]
  have hup : updateMetrics cfg stats ⟨[]⟩ ms =
      (res.1, Metrics.UpdateAllDomains res.2.2 "__other__" "0" res.2.1.requests
        res.2.1.bytesIn res.2.1.bytesOut res.2.1.byCategory) := by
    simp only [updateMetrics]
    rw [← hres_def, if_pos hcond]
  obtain ⟨hnd1, hov1, hall1⟩ := h3
  have hKres : alGet 0 res.2.2.lastSeen "all_req|__other__|0" = 0 := h4.trans hK1
  have hRpos : 0 < res.2.1.requests := by
    rw [hE]
    exact hEpos
  obtain ⟨hval, hcount⟩ := overflow_final res.2.2 res.2.1.requests res.2.1.bytesIn
    res.2.1.bytesOut res.2.1.byCategory hKres hov1 hRpos
  rw [hup]
  refine ⟨?_, ?_, ?_, ?_, ?_, ?_⟩
  · show res.1.allDomainsSeen.length ≤ k
    rw [h1]
    exact seenAfter_len k stats.DomainData [] (Nat.zero_le k)
  · have hpost : countersPost (seenAfter k [] stats.DomainData)
        (Metrics.UpdateAllDomains res.2.2 "__other__" "0" res.2.1.requests
          res.2.1.bytesIn res.2.1.bytesOut res.2.1.byCategory) := by
      apply countersPost_UpdateAllDomains_other
      exact ⟨hnd1, fun ck hck hhead _ => hall1 ck hck hhead⟩
    exact le_trans (indiv_series_bound _ _ hpost)
      (seenAfter_len k stats.DomainData [] (Nat.zero_le k))
  · exact hcount
  · rw [hval, hE]
  · intro seen dk hcont
    unfold admitDomain
    rw [if_pos hcont]
  · intro seen dk hcont
    unfold admitDomain
    rw [if_neg (fun hc => absurd (hcont.symm.trans hc) (by decide))]
    by_cases hlen : seen.length < k
    · rw [if_pos hlen]
      simp [hlen]
    · rw [if_neg hlen]
      simp [hlen]

/-- Counterexample to C3 as stated: when a parsed domain key is itself
`("__other__", "0")` it collides with the reserved overflow series.  With
`maxDomains = 1`, ingesting `("__other__", "0")` with 5 requests (admitted
individually) and `("a", "80")` with 3 requests (excluded), the excluded sum
is 3, but the overflow series ends at 5: the final overflow update computes
delta `3 - 5 ≤ 0` against the individual series' own lastSeen entry and adds
nothing, so the overflow request count does not equal the excluded sum. -/
theorem C3_counterexample :
    excludedRequests 1 []
        [(("__other__", "0"), { emptyDomainData with Requests := 5 }),
         (("a", "80"), { emptyDomainData with Requests := 3 })] = 3
    ∧ alGet 0 (updateMetrics
        { trackAllDomains := true, maxDomains := 1,
          logFormat := { fields := [], durationUnit := "ms" },
          monitoredDomains := [], domainPatterns := [] }
        { emptyStats with DomainData :=
            [(("__other__", "0"), { emptyDomainData with Requests := 5 }),
             (("a", "80"), { emptyDomainData with Requests := 3 })] }
        ⟨[]⟩ ⟨[], [], [], []⟩).2.counters
        ["squid_all_domains_requests_total", "__other__", "0"] = 5 := by
  constructor
  · norm_num [excludedRequests, admitDomain, domKey, emptyDomainData]
    decide
  · norm_num [updateMetrics, setGlobalStats, Metrics.SetConnections, Metrics.SetRequestDuration,
      Metrics.SetCacheStatus, Metrics.SetHTTPResponse, Metrics.applyDelta,
      Metrics.UpdateAllDomains, Metrics.makeKey, domainStep, domainStepTrack, admitDomain,
      domKey, Config.IsMonitored, alGet, alSet, alKeys, emptyStats, emptyDomainData,
      emptyOtherAcc]

/-- Witness for the amended C3 theorem at `maxDomains = 1` with two fresh
domains. -/
theorem C3_cardinality_overflow_witness :
    (∀ e ∈ exampleC3Stats.DomainData, e.1 ≠ ("__other__", "0"))
    ∧ 1 < exampleC3Stats.DomainData.length
    ∧ ((updateMetrics exampleC3Config exampleC3Stats ⟨[]⟩
          ⟨[], [], [], []⟩).1.allDomainsSeen.length ≤ 1
      ∧ ((alKeys (updateMetrics exampleC3Config exampleC3Stats ⟨[]⟩
            ⟨[], [], [], []⟩).2.counters).filter
          (fun ck => ck.headD "" == "squid_all_domains_requests_total"
            && ck != ["squid_all_domains_requests_total", "__other__", "0"])).length ≤ 1
      ∧ List.count ["squid_all_domains_requests_total", "__other__", "0"]
          (alKeys (updateMetrics exampleC3Config exampleC3Stats ⟨[]⟩
            ⟨[], [], [], []⟩).2.counters) = 1
      ∧ alGet 0 (updateMetrics exampleC3Config exampleC3Stats ⟨[]⟩
            ⟨[], [], [], []⟩).2.counters
          ["squid_all_domains_requests_total", "__other__", "0"]
          = excludedRequests 1 [] exampleC3Stats.DomainData
      ∧ (∀ (seen : List String) (dk : String), seen.contains dk = true →
          admitDomain 1 seen dk = (true, seen))
      ∧ (∀ (seen : List String) (dk : String), seen.contains dk = false →
          ((admitDomain 1 seen dk).1 = true ↔ seen.length < 1))) :=
  ⟨by decide, by decide,
    C3_cardinality_overflow exampleC3Config exampleC3Stats ⟨[], [], [], []⟩ 1 rfl rfl
      ⟨rfl, rfl⟩ ⟨rfl, rfl⟩ (by decide) (by decide) (by decide) (by decide) (by decide)⟩
